import Mathlib

/-!
Shallow embedding of the paperio game server (`server.py`) and verification
of its specification claims.

Modelling conventions:
* Python `int` is `Int`, list indices are `Nat`.
* Python `float` positions are modelled as exact rationals `ℚ`; the claims
  settled here do not depend on floating-point rounding.
* Python's `math.floor` on a rational is floor division of numerator by
  denominator (`Int.fdiv`).
* The `deque`-driven breadth-first search of `fill_enclosed_area` is a
  worklist loop written with an explicit fuel argument; the fuel passed by
  `Grid.bfsVisited` is proved sufficient (the loop always drains its queue).
* Python `dict[int, Player]` is an insertion-ordered association list.
* Strings are lists of characters; `str.strip`/`str.upper` are modelled on
  the ASCII range.
-/

namespace Paperio

/-- Terminal color palette (source: `class Color(Enum)`). -/
inductive Color where
  | BLACK
  | RED
  | GREEN
  | YELLOW
  | BLUE
  | MAGENTA
  | CYAN
  | WHITE
deriving DecidableEq, Repr

/-- A styled terminal character (source: `@dataclass class Char`).  Named
`Glyph` because `Char` is taken by Lean's character type, which is the type
of its `char` field. -/
structure Glyph where
  char : Char
  fg : Option Color := none
  bg : Option Color := none
  bold : Bool := false
  inverse : Bool := false
  bright : Bool := false
deriving DecidableEq, Repr

/-- A grid cell owns exactly one styled character (source: `@dataclass class Cell`). -/
structure Cell where
  char : Glyph
deriving DecidableEq, Repr

/-- Source: `Cell.blank()` — `Cell(Char(' '))`. -/
def Cell.blank : Cell := ⟨{ char := ' ' }⟩

/-- Source: `Cell.colored(color)` — `Cell(Char(' ', bg=color))`. -/
def Cell.colored (color : Color) : Cell := ⟨{ char := ' ', bg := some color }⟩

/-- The shared board (source: `class Grid`).  The constructor establishes
`cells.length = width * height`; that invariant is `Grid.WF` below. -/
structure Grid where
  width : Nat
  height : Nat
  cells : List Cell
deriving DecidableEq, Repr

/-- The invariant established by `Grid.__init__`: the flat cell list has
exactly `width * height` entries. -/
abbrev Grid.WF (g : Grid) : Prop := g.cells.length = g.width * g.height

/-- The in-bounds test `0 <= x < self.width and 0 <= y < self.height` used by
`Grid.get` and `Grid.set`. -/
abbrev inb (g : Grid) (x y : Int) : Prop :=
  0 ≤ x ∧ x < (g.width : Int) ∧ 0 ≤ y ∧ y < (g.height : Int)

/-- Flat index `y * self.width + x` of an in-bounds coordinate pair. -/
def idx (g : Grid) (x y : Int) : Nat := y.toNat * g.width + x.toNat

/-- Source: `Grid.get` — the stored cell when in bounds, `None` otherwise. -/
def Grid.get (g : Grid) (x y : Int) : Option Cell :=
  if inb g x y then g.cells.get? (idx g x y) else none

/-- Source: `Grid.set` — replaces the stored cell when in bounds, no-op otherwise. -/
def Grid.set (g : Grid) (x y : Int) (cell : Cell) : Grid :=
  if inb g x y then { g with cells := g.cells.set (idx g x y) cell } else g

/-- The background color stored at a coordinate (`cell.char.bg` when the
coordinate is in bounds, `none` otherwise). -/
def colorAt (g : Grid) (x y : Int) : Option Color :=
  match g.get x y with
  | some cell => cell.char.bg
  | none => none

/-- Reading of the `visited` bool array at a flat index (out-of-range reads
default to `false`; in the source all reads are in range). -/
def visitedAt (v : List Bool) (i : Nat) : Bool := (v.get? i).getD false

/-- The common body of the seeding loops and the BFS inner loop of
`fill_enclosed_area`: if the cell at `(x, y)` exists, is not colored
`pc` and is unvisited, mark it visited and push it on the queue. -/
def visitMark (g : Grid) (pc : Color) (st : List Bool × List (Int × Int))
    (x y : Int) : List Bool × List (Int × Int) :=
  match g.get x y with
  | some cell =>
      if visitedAt st.1 (idx g x y) = false ∧ cell.char.bg ≠ some pc then
        (st.1.set (idx g x y) true, st.2 ++ [(x, y)])
      else st
  | none => st

/-- The four neighbor offsets `((1,0), (-1,0), (0,1), (0,-1))`. -/
def dirs : List (Int × Int) := [(1, 0), (-1, 0), (0, 1), (0, -1)]

/-- One neighbor probe of the BFS `while` loop: bounds test
`0 <= nx < self.width and 0 <= ny < self.height`, then the visit/enqueue body. -/
def bfsNext (g : Grid) (pc : Color) (cx cy : Int)
    (st : List Bool × List (Int × Int)) (d : Int × Int) :
    List Bool × List (Int × Int) :=
  if inb g (cx + d.1) (cy + d.2) then visitMark g pc st (cx + d.1) (cy + d.2) else st

/-- The BFS `while queue:` loop of `fill_enclosed_area`, with explicit fuel.
Each iteration pops the queue head and probes its four neighbors.  The fuel
passed by `Grid.bfsVisited` is large enough that the loop always ends by
draining the queue (proved below). -/
def bfsLoop (g : Grid) (pc : Color) : Nat → List Bool → List (Int × Int) → List Bool
  | 0, visited, _ => visited
  | _ + 1, visited, [] => visited
  | fuel + 1, visited, c :: rest =>
      let st := dirs.foldl (bfsNext g pc c.1 c.2) (visited, rest)
      bfsLoop g pc fuel st.1 st.2

/-- The two seeding loops of `fill_enclosed_area`: every boundary cell not
colored `pc` is marked visited and enqueued.  First loop: `x in range(width)`,
`y in (0, height - 1)`; second loop: `y in range(height)`, `x in (0, width - 1)`. -/
def Grid.seedState (g : Grid) (pc : Color) : List Bool × List (Int × Int) :=
  let st0 : List Bool × List (Int × Int) :=
    (List.replicate (g.width * g.height) false, [])
  let st1 := (List.range g.width).foldl
    (fun st (x : Nat) =>
      [(0 : Int), (g.height : Int) - 1].foldl
        (fun st y => visitMark g pc st (x : Int) y) st)
    st0
  (List.range g.height).foldl
    (fun st (y : Nat) =>
      [(0 : Int), (g.width : Int) - 1].foldl
        (fun st x => visitMark g pc st x (y : Int)) st)
    st1

/-- The visited array produced by seeding plus BFS in `fill_enclosed_area`. -/
def Grid.bfsVisited (g : Grid) (pc : Color) : List Bool :=
  let st := g.seedState pc
  bfsLoop g pc (g.width * g.height + st.2.length + 1) st.1 st.2

/-- Source: `Grid.fill_enclosed_area(player_color)` — boundary-seeded BFS over
non-`player_color` cells, then every unvisited cell is recolored
`Cell.colored(player_color)`. -/
def Grid.fill_enclosed_area (g : Grid) (pc : Color) : Grid :=
  let visited := g.bfsVisited pc
  (List.range g.height).foldl
    (fun g2 y =>
      (List.range g.width).foldl
        (fun g3 x =>
          if visitedAt visited (y * g.width + x) = false then
            g3.set (x : Int) (y : Int) (Cell.colored pc)
          else g3)
        g2)
    g

/-- Source: `class Key(Enum)`. -/
inductive Key where
  | UP
  | DOWN
  | LEFT
  | RIGHT
deriving DecidableEq, Repr

/-- Source: `PLAYER_SPEED = 4`. -/
def PLAYER_SPEED : ℚ := 4

/-- Source: `@dataclass class Player`.  Positions are exact rationals. -/
structure Player where
  x : ℚ
  y : ℚ
  color : Color
  dx : ℚ := 0
  dy : ℚ := 0
  trail : List (Int × Int) := []
deriving DecidableEq, Repr

/-- Source: `Player.update` — linear position integration. -/
def Player.update (p : Player) (frame_time : ℚ) : Player :=
  { p with
    x := p.x + p.dx * frame_time * PLAYER_SPEED,
    y := p.y + p.dy * frame_time * PLAYER_SPEED }

/-- Source: `Player.handle_key` — sets the heading to a unit vector. -/
def Player.handle_key (p : Player) (key : Key) : Player :=
  match key with
  | Key.UP => { p with dx := 0, dy := -1 }
  | Key.DOWN => { p with dx := 0, dy := 1 }
  | Key.LEFT => { p with dx := -1, dy := 0 }
  | Key.RIGHT => { p with dx := 1, dy := 0 }

/-- Floor of a rational, as Python's `math.floor` computes it: Euclidean
division of the numerator by the (positive) denominator, which is proved
equal to the mathematical floor in `ratFloor_intFloor` below. -/
def ratFloor (q : ℚ) : Int := q.num / (q.den : Int)

/-- Source: `Player.grid_position` — `(int(math.floor(x)), int(math.floor(y)))`. -/
def Player.grid_position (p : Player) : Int × Int := (ratFloor p.x, ratFloor p.y)

/-- Source: `class Game`.  The thread lock is not modelled; the simulation
step is the sequential loop body it guards.  The player dict is an
insertion-ordered association list. -/
structure Game where
  grid : Grid
  players : List (Nat × Player)
  running : Bool := true
deriving DecidableEq, Repr

/-- Source: `Game.add_player` — dict insert (overwrite if the id exists). -/
def Game.add_player (game : Game) (player_id : Nat) (player : Player) : Game :=
  { game with
    players :=
      if game.players.any (fun kv => kv.1 == player_id) then
        game.players.map (fun kv => if kv.1 == player_id then (kv.1, player) else kv)
      else game.players ++ [(player_id, player)] }

/-- Source: `Game.remove_player` — `if player_id in self.players: del ...`,
i.e. the entry with that key (if any) is dropped and nothing else changes. -/
def Game.remove_player (game : Game) (player_id : Nat) : Game :=
  { game with players := game.players.filter (fun kv => kv.1 != player_id) }

/-- The four edge-wrap `if` statements of `Game.update`, applied to the
already-advanced player `p1` whose floored position is `(nx, ny)`. -/
def wrapPlayer (grid : Grid) (p1 : Player) (nx ny : Int) : Player :=
  let p2 := if nx < 0 then { p1 with x := (grid.width : ℚ) - 1 } else p1
  let p3 := if (grid.width : Int) ≤ nx then { p2 with x := 0 } else p2
  let p4 := if ny < 0 then { p3 with y := (grid.height : ℚ) - 1 } else p3
  if (grid.height : Int) ≤ ny then { p4 with y := 0 } else p4

/-- The per-player body of `Game.update`: advance the position, wrap the
stored coordinates at the edges (note: the *pre-wrap* floored position
`(nx, ny)` is what the subsequent cell read, trail append and cell write
use, exactly as in the source), then either close the loop (fill and clear
the trail) or extend the trail and paint the cell. -/
def stepPlayer (grid : Grid) (p : Player) (frame_time : ℚ) : Grid × Player :=
  let p1 := p.update frame_time
  let nx := p1.grid_position.1
  let ny := p1.grid_position.2
  let p5 := wrapPlayer grid p1 nx ny
  match grid.get nx ny with
  | some cell =>
      if cell.char.bg = some p.color then
        if p.trail = [] then (grid, p5)
        else (grid.fill_enclosed_area p.color, { p5 with trail := [] })
      else
        (grid.set nx ny (Cell.colored p.color), { p5 with trail := p.trail ++ [(nx, ny)] })
  | none =>
      (grid.set nx ny (Cell.colored p.color), { p5 with trail := p.trail ++ [(nx, ny)] })

/-- Source: `Game.update` — the simulation step: each player in insertion
order is advanced against the grid as mutated by the players before it. -/
def Game.update (game : Game) (frame_time : ℚ) : Game :=
  let res := game.players.foldl
    (fun acc kv =>
      let r := stepPlayer acc.1 kv.2 frame_time
      (r.1, acc.2 ++ [(kv.1, r.2)]))
    (game.grid, ([] : List (Nat × Player)))
  { game with grid := res.1, players := res.2 }

/-- Python's default `str.strip` whitespace set, restricted to ASCII. -/
def isPySpace (c : Char) : Bool :=
  c = ' ' || c = '\t' || c = '\n' || c = '\r' || c = '\x0b' || c = '\x0c'

/-- Source: `cmd.strip()` — drop leading and trailing whitespace. -/
def pyStrip (s : List Char) : List Char :=
  ((s.dropWhile isPySpace).reverse.dropWhile isPySpace).reverse

/-- Source: `.upper()` — ASCII uppercasing, character by character. -/
def pyUpper (s : List Char) : List Char := s.map Char.toUpper

/-- Source: `parse_command` — strip, uppercase, look up in the
`{UP, DOWN, LEFT, RIGHT}` mapping. -/
def parse_command (cmd : List Char) : Option Key :=
  let t := pyUpper (pyStrip cmd)
  if t = ['U', 'P'] then some Key.UP
  else if t = ['D', 'O', 'W', 'N'] then some Key.DOWN
  else if t = ['L', 'E', 'F', 'T'] then some Key.LEFT
  else if t = ['R', 'I', 'G', 'H', 'T'] then some Key.RIGHT
  else none

/-- The token each key is spelled as (spec: values `UP|DOWN|LEFT|RIGHT`). -/
def keyWord : Key → List Char
  | Key.UP => ['U', 'P']
  | Key.DOWN => ['D', 'O', 'W', 'N']
  | Key.LEFT => ['L', 'E', 'F', 'T']
  | Key.RIGHT => ['R', 'I', 'G', 'H', 'T']

/-- Case-insensitive equality of character lists (spec: "ignoring letter
case"), on the ASCII range. -/
def caseless (s t : List Char) : Prop := s.map Char.toUpper = t.map Char.toUpper

/-- Spec-side definition: membership in the grid boundary (top or bottom row,
left or right column). -/
def onBoundary (g : Grid) (x y : Int) : Prop :=
  x = 0 ∨ x = (g.width : Int) - 1 ∨ y = 0 ∨ y = (g.height : Int) - 1

/-- Spec-side definition: a cell the flood fill may stand on — it exists and
is not already colored `pc`. -/
def passable (g : Grid) (pc : Color) (x y : Int) : Prop :=
  ∃ cell, g.get x y = some cell ∧ cell.char.bg ≠ some pc

/-- Spec-side definition, following the claim text: a cell is reachable when
it can be reached from some boundary cell by 4-neighbor steps that never
cross a cell colored `pc` (the visited cells themselves, boundary start
included, are never `pc`-colored). -/
inductive Reachable (g : Grid) (pc : Color) : Int → Int → Prop where
  | seed {x y : Int} : onBoundary g x y → passable g pc x y → Reachable g pc x y
  | step {x y x' y' : Int} : Reachable g pc x y →
      (x' - x).natAbs + (y' - y).natAbs = 1 →
      passable g pc x' y' → Reachable g pc x' y'

/-- Count of `false` entries of a visited array (the BFS termination measure,
together with the queue length). -/
def cntF : List Bool → Nat
  | [] => 0
  | b :: t => (if b then 0 else 1) + cntF t

/-- Association-list lookup, the semantics of `self.players[player_id]`. -/
def lookupId (players : List (Nat × Player)) (i : Nat) : Option Player :=
  match players with
  | [] => none
  | kv :: rest => if kv.1 = i then some kv.2 else lookupId rest i

/-- The BFS worklist invariant: the visited array has the right length, every
queued cell and every visited cell is reachable, and every visited cell that
has already been fully processed (is no longer queued) has all its passable
neighbors visited. -/
structure BfsInv (g : Grid) (pc : Color) (v : List Bool) (q : List (Int × Int)) : Prop where
  len : v.length = g.width * g.height
  reach : ∀ p ∈ q, Reachable g pc p.1 p.2
  sound : ∀ x y : Int, inb g x y → visitedAt v (idx g x y) = true → Reachable g pc x y
  closed : ∀ x y : Int, inb g x y → visitedAt v (idx g x y) = true → (x, y) ∉ q →
    ∀ x' y' : Int, (x' - x).natAbs + (y' - y).natAbs = 1 → passable g pc x' y' →
      visitedAt v (idx g x' y') = true

/-- The invariant of the seeding phase: additionally, every visited cell is
still in the queue (nothing has been processed yet). -/
structure SeedInv (g : Grid) (pc : Color) (v : List Bool) (q : List (Int × Int)) : Prop where
  len : v.length = g.width * g.height
  reach : ∀ p ∈ q, Reachable g pc p.1 p.2
  sound : ∀ x y : Int, inb g x y → visitedAt v (idx g x y) = true → Reachable g pc x y
  sub : ∀ x y : Int, inb g x y → visitedAt v (idx g x y) = true → (x, y) ∈ q

/-- All grid coordinates in row-major order, the iteration order of the
repaint loops of `fill_enclosed_area`. -/
def rowPts (w h : Nat) : List (Nat × Nat) :=
  ((List.range h).map (fun y => (List.range w).map (fun x => (x, y)))).flatten

/-- The positions visited by the first seeding loop of `fill_enclosed_area`
(`x in range(width)`, `y in (0, height - 1)`), flattened in iteration order. -/
def seedPts1 (g : Grid) : List (Int × Int) :=
  ((List.range g.width).map
    (fun (x : Nat) => [((x : Int), (0 : Int)), ((x : Int), (g.height : Int) - 1)])).flatten

/-- The positions visited by the second seeding loop of `fill_enclosed_area`
(`y in range(height)`, `x in (0, width - 1)`), flattened in iteration order. -/
def seedPts2 (g : Grid) : List (Int × Int) :=
  ((List.range g.height).map
    (fun (y : Nat) => [((0 : Int), (y : Int)), (((g.width : Int) - 1), (y : Int))])).flatten

/-- Fixture: a 1×1 grid holding one blank cell. -/
def g11 : Grid := ⟨1, 1, [Cell.blank]⟩

/-- Fixture: a red player resting at the origin. -/
def pRED : Player := { x := 0, y := 0, color := Color.RED }

/-- Fixture: a blue player resting at the origin. -/
def pBLUE : Player := { x := 0, y := 0, color := Color.BLUE }

/-- Fixture: a two-player game on the 1×1 grid. -/
def gameAB : Game := ⟨g11, [(0, pRED), (1, pBLUE)], true⟩

/-- Fixture: a 2×2 grid entirely colored red (its boundary is all four cells). -/
def g22 : Grid :=
  ⟨2, 2, [Cell.colored Color.RED, Cell.colored Color.RED,
          Cell.colored Color.RED, Cell.colored Color.RED]⟩

/-- Fixture: a blank 2×1 grid. -/
def gridC2 : Grid := ⟨2, 1, [Cell.blank, Cell.blank]⟩

/-- Fixture: a red player standing just left of the grid, about to wrap. -/
def pC2 : Player := { x := -1/2, y := 0, color := Color.RED }

/-- Fixture: the single-player game exhibiting the out-of-bounds read. -/
def gameC2 : Game := ⟨gridC2, [(0, pC2)], true⟩

/-- Fixture: a 3×3 grid whose boundary ring is red and whose center is blank. -/
def gridC3 : Grid :=
  ⟨3, 3, [Cell.colored Color.RED, Cell.colored Color.RED, Cell.colored Color.RED,
          Cell.colored Color.RED, Cell.blank, Cell.colored Color.RED,
          Cell.colored Color.RED, Cell.colored Color.RED, Cell.colored Color.RED]⟩

/-- Fixture: a red player resting on own-colored cell (0,0) with a trail of
length one. -/
def pC3 : Player := { x := 0, y := 0, color := Color.RED, trail := [(0, 1)] }

/-- Fixture: the single-player game exhibiting a fill with trail length 1. -/
def gameC3 : Game := ⟨gridC3, [(0, pC3)], true⟩

/-- Fixture: a blank 1×1 grid. -/
def gridC4 : Grid := ⟨1, 1, [Cell.blank]⟩

/-- Fixture: a red player heading left on the 1×1 grid. -/
def pC4 : Player := { x := 0, y := 0, color := Color.RED, dx := -1, dy := 0 }

/-- Fixture: the single-player game exhibiting duplicate out-of-bounds trail
entries. -/
def gameC4 : Game := ⟨gridC4, [(0, pC4)], true⟩

section BasicLemmas

theorem getq_none {α : Type} (l : List α) : ∀ i, l.length ≤ i → l.get? i = none := by
  induction l with
  | nil => intro i _; rfl
  | cons a t ih =>
      intro i h
      cases i with
      | zero => simp at h
      | succ j => simpa using ih j (by simpa using h)

theorem getq_some {α : Type} (l : List α) : ∀ i, i < l.length → ∃ a, l.get? i = some a := by
  induction l with
  | nil => intro i h; simp at h
  | cons a t ih =>
      intro i h
      cases i with
      | zero => exact ⟨a, rfl⟩
      | succ j => simpa using ih j (by simpa using h)

theorem getq_set_self {α : Type} (l : List α) (a : α) :
    ∀ i, i < l.length → (l.set i a).get? i = some a := by
  induction l with
  | nil => intro i h; simp at h
  | cons b t ih =>
      intro i h
      cases i with
      | zero => rfl
      | succ j => simpa using ih j (by simpa using h)

theorem getq_set_ne {α : Type} (l : List α) (a : α) :
    ∀ i j, i ≠ j → (l.set i a).get? j = l.get? j := by
  induction l with
  | nil => intro i j _; rfl
  | cons b t ih =>
      intro i j hne
      cases i with
      | zero =>
          cases j with
          | zero => exact absurd rfl hne
          | succ j' => rfl
      | succ i' =>
          cases j with
          | zero => rfl
          | succ j' => simpa using ih i' j' (fun h => hne (by rw [h]))

theorem getq_replicate {α : Type} (a : α) :
    ∀ (n i : Nat), (List.replicate n a).get? i = if i < n then some a else none := by
  intro n
  induction n with
  | zero => intro i; simp [List.replicate]
  | succ m ih =>
      intro i
      cases i with
      | zero => simp [List.replicate]
      | succ j => simpa [List.replicate, Nat.succ_lt_succ_iff] using ih j

theorem getq_ext {α : Type} :
    ∀ (l₁ l₂ : List α), (∀ i, l₁.get? i = l₂.get? i) → l₁ = l₂ := by
  intro l₁
  induction l₁ with
  | nil =>
      intro l₂ h
      cases l₂ with
      | nil => rfl
      | cons b u => have h0 := h 0; simp at h0
  | cons a t ih =>
      intro l₂ h
      cases l₂ with
      | nil => have h0 := h 0; simp at h0
      | cons b u =>
          have h0 := h 0
          simp at h0
          have ht : t = u := ih u (fun i => by simpa using h (i + 1))
          rw [h0, ht]

theorem cntF_le_length : ∀ l : List Bool, cntF l ≤ l.length := by
  intro l
  induction l with
  | nil => simp [cntF]
  | cons b t ih => cases b <;> simp [cntF] <;> omega

theorem cntF_set_true :
    ∀ (l : List Bool) (i : Nat), i < l.length → visitedAt l i = false →
      cntF (l.set i true) + 1 = cntF l := by
  intro l
  induction l with
  | nil => intro i h; simp at h
  | cons b t ih =>
      intro i hlen hvis
      cases i with
      | zero =>
          have hb : b = false := by simpa [visitedAt] using hvis
          subst hb
          simp [cntF]
          omega
      | succ j =>
          have h1 : visitedAt t j = false := by simpa [visitedAt] using hvis
          have h2 := ih j (by simpa using hlen) h1
          simp only [List.set]
          simp [cntF]
          omega

theorem foldP {α β : Type} (f : α → β → α) (P : α → Prop) :
    ∀ (l : List β) (a : α), (∀ a b, b ∈ l → P a → P (f a b)) → P a → P (l.foldl f a) := by
  intro l
  induction l with
  | nil => intro a _ h; exact h
  | cons b t ih =>
      intro a hstep h0
      rw [List.foldl_cons]
      exact ih (f a b) (fun a' b' hb' => hstep a' b' (List.mem_cons_of_mem _ hb'))
        (hstep a b (List.mem_cons_self _ _) h0)

theorem foldE {α β : Type} (f : α → β → α) (P : α → Prop) (Q : β → α → Prop) :
    ∀ (l : List β) (a : α),
      (∀ a b, b ∈ l → P a → P (f a b)) →
      (∀ a b, b ∈ l → P a → Q b (f a b)) →
      (∀ a b c, b ∈ l → Q c a → Q c (f a b)) →
      P a → ∀ b ∈ l, Q b (l.foldl f a) := by
  intro l
  induction l with
  | nil => intro a _ _ _ _ b hb; simp at hb
  | cons x t ih =>
      intro a hP hQ hM h0 b hb
      rw [List.foldl_cons]
      rcases List.mem_cons.mp hb with rfl | hbt
      · exact foldP f (Q b) t (f a b)
          (fun a' b' hb' => hM a' b' b (List.mem_cons_of_mem _ hb'))
          (hQ a b (List.mem_cons_self _ _) h0)
      · exact ih (f a x)
          (fun a' b' hb' => hP a' b' (List.mem_cons_of_mem _ hb'))
          (fun a' b' hb' => hQ a' b' (List.mem_cons_of_mem _ hb'))
          (fun a' b' c hb' => hM a' b' c (List.mem_cons_of_mem _ hb'))
          (hP a x (List.mem_cons_self _ _) h0) b hbt

end BasicLemmas

section GridLemmas

theorem idx_lt (g : Grid) {x y : Int} (h : inb g x y) : idx g x y < g.width * g.height := by
  obtain ⟨h1, h2, h3, h4⟩ := h
  have hx : x.toNat < g.width := by omega
  have hy : y.toNat < g.height := by omega
  unfold idx
  calc y.toNat * g.width + x.toNat < y.toNat * g.width + g.width := by omega
    _ = (y.toNat + 1) * g.width := by ring
    _ ≤ g.height * g.width := Nat.mul_le_mul_right _ (by omega)
    _ = g.width * g.height := Nat.mul_comm _ _

theorem idx_inj (g : Grid) {x y x' y' : Int} (h : inb g x y) (h' : inb g x' y')
    (he : idx g x y = idx g x' y') : x = x' ∧ y = y' := by
  obtain ⟨h1, h2, h3, h4⟩ := h
  obtain ⟨h1', h2', h3', h4'⟩ := h'
  have hx : x.toNat < g.width := by omega
  have hx' : x'.toNat < g.width := by omega
  have hw : 0 < g.width := by omega
  unfold idx at he
  have e1 : (y.toNat * g.width + x.toNat) / g.width = y.toNat := by
    rw [Nat.mul_comm y.toNat g.width, Nat.mul_add_div hw, Nat.div_eq_of_lt hx]
    omega
  have e2 : (y'.toNat * g.width + x'.toNat) / g.width = y'.toNat := by
    rw [Nat.mul_comm y'.toNat g.width, Nat.mul_add_div hw, Nat.div_eq_of_lt hx']
    omega
  have hyy : y.toNat = y'.toNat := by rw [← e1, ← e2, he]
  have hxx : x.toNat = x'.toNat := by
    rw [hyy] at he
    exact Nat.add_left_cancel he
  omega

theorem Grid.get_oob (g : Grid) {x y : Int} (h : ¬ inb g x y) : g.get x y = none :=
  if_neg h

theorem Grid.set_oob (g : Grid) {x y : Int} (c : Cell) (h : ¬ inb g x y) : g.set x y c = g :=
  if_neg h

theorem Grid.get_inb (g : Grid) {x y : Int} (h : inb g x y) :
    g.get x y = g.cells.get? (idx g x y) :=
  if_pos h

theorem Grid.get_some (g : Grid) {x y : Int} (hwf : g.WF) (h : inb g x y) :
    ∃ cell, g.get x y = some cell := by
  rw [g.get_inb h]
  exact getq_some _ _ (by rw [hwf]; exact idx_lt g h)

theorem Grid.width_set (g : Grid) (x y : Int) (c : Cell) : (g.set x y c).width = g.width := by
  unfold Grid.set; split <;> rfl

theorem Grid.height_set (g : Grid) (x y : Int) (c : Cell) : (g.set x y c).height = g.height := by
  unfold Grid.set; split <;> rfl

theorem Grid.length_set (g : Grid) (x y : Int) (c : Cell) :
    (g.set x y c).cells.length = g.cells.length := by
  unfold Grid.set; split <;> simp

theorem Grid.wf_set (g : Grid) (x y : Int) (c : Cell) (hwf : g.WF) : (g.set x y c).WF := by
  unfold Grid.WF
  rw [Grid.length_set, Grid.width_set, Grid.height_set]
  exact hwf

theorem Grid.cells_set_inb (g : Grid) {x y : Int} (c : Cell) (h : inb g x y) :
    (g.set x y c).cells = g.cells.set (idx g x y) c := by
  unfold Grid.set
  rw [if_pos h]

theorem inb_set (g : Grid) (x y : Int) (c : Cell) (x' y' : Int) :
    inb (g.set x y c) x' y' ↔ inb g x' y' := by
  unfold inb
  rw [Grid.width_set, Grid.height_set]

theorem idx_set (g : Grid) (x y : Int) (c : Cell) (x' y' : Int) :
    idx (g.set x y c) x' y' = idx g x' y' := by
  unfold idx
  rw [Grid.width_set]

theorem Grid.get_set_self (g : Grid) {x y : Int} (c : Cell) (hwf : g.WF) (h : inb g x y) :
    (g.set x y c).get x y = some c := by
  rw [Grid.get_inb _ ((inb_set g x y c x y).mpr h), idx_set, Grid.cells_set_inb g c h]
  exact getq_set_self _ _ _ (by rw [hwf]; exact idx_lt g h)

theorem Grid.get_set_ne (g : Grid) {x y x' y' : Int} (c : Cell)
    (hne : ¬ (x' = x ∧ y' = y)) : (g.set x y c).get x' y' = g.get x' y' := by
  by_cases h : inb g x y
  · by_cases h' : inb g x' y'
    · rw [Grid.get_inb _ ((inb_set g x y c x' y').mpr h'), idx_set,
        Grid.cells_set_inb g c h, Grid.get_inb _ h']
      refine getq_set_ne _ _ _ _ (fun he => hne ?_)
      have := idx_inj g h h' he
      exact ⟨this.1.symm, this.2.symm⟩
    · rw [Grid.get_oob _ (fun hc => h' ((inb_set g x y c x' y').mp hc)), Grid.get_oob _ h']
  · rw [g.set_oob c h]

end GridLemmas

section BfsStepLemmas

theorem set_oob_eq {α : Type} (l : List α) (a : α) : ∀ i, l.length ≤ i → l.set i a = l := by
  induction l with
  | nil => intro i _; rfl
  | cons b t ih =>
      intro i h
      cases i with
      | zero => simp at h
      | succ j => simpa using ih j (by simpa using h)

theorem visitedAt_set_true (v : List Bool) (j : Nat) (h : j < v.length) :
    visitedAt (v.set j true) j = true := by
  unfold visitedAt
  rw [getq_set_self _ _ _ h]
  rfl

theorem visitedAt_set_mono (v : List Bool) (j i : Nat) (h : visitedAt v i = true) :
    visitedAt (v.set j true) i = true := by
  by_cases hij : j = i
  · subst hij
    by_cases hl : j < v.length
    · exact visitedAt_set_true v j hl
    · rw [set_oob_eq v true j (le_of_not_lt hl)]
      exact h
  · unfold visitedAt at h ⊢
    rw [getq_set_ne _ _ _ _ hij]
    exact h

theorem Grid.inb_of_get (g : Grid) {x y : Int} {c : Cell} (h : g.get x y = some c) :
    inb g x y := by
  by_cases hb : inb g x y
  · exact hb
  · rw [Grid.get_oob _ hb] at h
    cases h

theorem passable_inb {g : Grid} {pc : Color} {x y : Int} (h : passable g pc x y) :
    inb g x y := by
  obtain ⟨c, hc, _⟩ := h
  exact g.inb_of_get hc

theorem Reachable_inb {g : Grid} {pc : Color} {x y : Int} (h : Reachable g pc x y) :
    inb g x y := by
  cases h with
  | seed _ hp => exact passable_inb hp
  | step _ _ hp => exact passable_inb hp

theorem adj_cases {x y x' y' : Int} (h : (x' - x).natAbs + (y' - y).natAbs = 1) :
    (x' = x + 1 ∧ y' = y) ∨ (x' = x - 1 ∧ y' = y) ∨
    (x' = x ∧ y' = y + 1) ∨ (x' = x ∧ y' = y - 1) := by
  omega

theorem visitMark_len (g : Grid) (pc : Color) (st : List Bool × List (Int × Int))
    (x y : Int) : (visitMark g pc st x y).1.length = st.1.length := by
  unfold visitMark
  cases hg : g.get x y with
  | none => rfl
  | some cell =>
      dsimp only
      split <;> simp

theorem visitMark_mono (g : Grid) (pc : Color) (st : List Bool × List (Int × Int))
    (x y : Int) (i : Nat) (h : visitedAt st.1 i = true) :
    visitedAt (visitMark g pc st x y).1 i = true := by
  unfold visitMark
  cases hg : g.get x y with
  | none => exact h
  | some cell =>
      dsimp only
      split
      · exact visitedAt_set_mono _ _ _ h
      · exact h

theorem visitMark_queue_mono (g : Grid) (pc : Color) (st : List Bool × List (Int × Int))
    (x y : Int) (p : Int × Int) (h : p ∈ st.2) : p ∈ (visitMark g pc st x y).2 := by
  unfold visitMark
  cases hg : g.get x y with
  | none => exact h
  | some cell =>
      dsimp only
      split
      · exact List.mem_append_left _ h
      · exact h

theorem visitMark_queue_new (g : Grid) (pc : Color) (st : List Bool × List (Int × Int))
    (x y : Int) : ∀ p ∈ (visitMark g pc st x y).2,
      p ∈ st.2 ∨ (p = (x, y) ∧ passable g pc x y) := by
  unfold visitMark
  cases hg : g.get x y with
  | none => exact fun p hp => Or.inl hp
  | some cell =>
      dsimp only
      by_cases hc : visitedAt st.1 (idx g x y) = false ∧ cell.char.bg ≠ some pc
      · rw [if_pos hc]
        intro p hp
        rcases List.mem_append.mp hp with hold | hnew
        · exact Or.inl hold
        · refine Or.inr ⟨List.mem_singleton.mp hnew, cell, hg, hc.2⟩
      · rw [if_neg hc]
        exact fun p hp => Or.inl hp

theorem visitMark_vis_new (g : Grid) (pc : Color) (st : List Bool × List (Int × Int))
    (x y : Int) : ∀ i, visitedAt (visitMark g pc st x y).1 i = true →
      visitedAt st.1 i = true ∨
      (i = idx g x y ∧ inb g x y ∧ passable g pc x y ∧ (x, y) ∈ (visitMark g pc st x y).2) := by
  unfold visitMark
  cases hg : g.get x y with
  | none => exact fun i h => Or.inl h
  | some cell =>
      dsimp only
      by_cases hc : visitedAt st.1 (idx g x y) = false ∧ cell.char.bg ≠ some pc
      · rw [if_pos hc]
        intro i h
        by_cases hij : i = idx g x y
        · subst hij
          exact Or.inr ⟨rfl, g.inb_of_get hg, ⟨cell, hg, hc.2⟩,
            List.mem_append_right _ (List.mem_singleton.mpr rfl)⟩
        · left
          unfold visitedAt at h ⊢
          rwa [getq_set_ne _ _ _ _ (fun he => hij he.symm)] at h
      · rw [if_neg hc]
        exact fun i h => Or.inl h

theorem visitMark_marks (g : Grid) (pc : Color) (st : List Bool × List (Int × Int))
    (x y : Int) (hlen : st.1.length = g.width * g.height) (hp : passable g pc x y) :
    visitedAt (visitMark g pc st x y).1 (idx g x y) = true := by
  obtain ⟨cell, hg, hbg⟩ := hp
  have hin : inb g x y := g.inb_of_get hg
  unfold visitMark
  rw [hg]
  dsimp only
  by_cases hc : visitedAt st.1 (idx g x y) = false ∧ cell.char.bg ≠ some pc
  · rw [if_pos hc]
    exact visitedAt_set_true _ _ (by rw [hlen]; exact idx_lt g hin)
  · rw [if_neg hc]
    have hv : ¬ visitedAt st.1 (idx g x y) = false := fun ha => hc ⟨ha, hbg⟩
    simpa using hv

theorem visitMark_measure (g : Grid) (pc : Color) (st : List Bool × List (Int × Int))
    (x y : Int) (hlen : st.1.length = g.width * g.height) :
    cntF (visitMark g pc st x y).1 + (visitMark g pc st x y).2.length ≤
      cntF st.1 + st.2.length := by
  unfold visitMark
  cases hg : g.get x y with
  | none => exact le_refl _
  | some cell =>
      dsimp only
      by_cases hc : visitedAt st.1 (idx g x y) = false ∧ cell.char.bg ≠ some pc
      · rw [if_pos hc]
        have hin : inb g x y := g.inb_of_get hg
        have := cntF_set_true st.1 (idx g x y) (by rw [hlen]; exact idx_lt g hin) hc.1
        simp only [List.length_append, List.length_cons, List.length_nil]
        omega
      · rw [if_neg hc]

theorem bfsNext_len (g : Grid) (pc : Color) (cx cy : Int)
    (st : List Bool × List (Int × Int)) (d : Int × Int) :
    (bfsNext g pc cx cy st d).1.length = st.1.length := by
  unfold bfsNext
  split
  · exact visitMark_len _ _ _ _ _
  · rfl

theorem bfsNext_mono (g : Grid) (pc : Color) (cx cy : Int)
    (st : List Bool × List (Int × Int)) (d : Int × Int) (i : Nat)
    (h : visitedAt st.1 i = true) : visitedAt (bfsNext g pc cx cy st d).1 i = true := by
  unfold bfsNext
  split
  · exact visitMark_mono _ _ _ _ _ _ h
  · exact h

theorem bfsNext_queue_mono (g : Grid) (pc : Color) (cx cy : Int)
    (st : List Bool × List (Int × Int)) (d : Int × Int) (p : Int × Int)
    (h : p ∈ st.2) : p ∈ (bfsNext g pc cx cy st d).2 := by
  unfold bfsNext
  split
  · exact visitMark_queue_mono _ _ _ _ _ _ h
  · exact h

theorem bfsNext_queue_new (g : Grid) (pc : Color) (cx cy : Int)
    (st : List Bool × List (Int × Int)) (d : Int × Int) :
    ∀ p ∈ (bfsNext g pc cx cy st d).2,
      p ∈ st.2 ∨ (p = (cx + d.1, cy + d.2) ∧ passable g pc (cx + d.1) (cy + d.2)) := by
  unfold bfsNext
  split
  · exact visitMark_queue_new _ _ _ _ _
  · exact fun p hp => Or.inl hp

theorem bfsNext_vis_new (g : Grid) (pc : Color) (cx cy : Int)
    (st : List Bool × List (Int × Int)) (d : Int × Int) :
    ∀ i, visitedAt (bfsNext g pc cx cy st d).1 i = true →
      visitedAt st.1 i = true ∨
      (i = idx g (cx + d.1) (cy + d.2) ∧ inb g (cx + d.1) (cy + d.2) ∧
        passable g pc (cx + d.1) (cy + d.2) ∧
        (cx + d.1, cy + d.2) ∈ (bfsNext g pc cx cy st d).2) := by
  unfold bfsNext
  split
  · exact visitMark_vis_new _ _ _ _ _
  · exact fun i h => Or.inl h

theorem bfsNext_marks (g : Grid) (pc : Color) (cx cy : Int)
    (st : List Bool × List (Int × Int)) (d : Int × Int)
    (hlen : st.1.length = g.width * g.height)
    (hp : passable g pc (cx + d.1) (cy + d.2)) :
    visitedAt (bfsNext g pc cx cy st d).1 (idx g (cx + d.1) (cy + d.2)) = true := by
  unfold bfsNext
  rw [if_pos (passable_inb hp)]
  exact visitMark_marks _ _ _ _ _ hlen hp

theorem bfsNext_measure (g : Grid) (pc : Color) (cx cy : Int)
    (st : List Bool × List (Int × Int)) (d : Int × Int)
    (hlen : st.1.length = g.width * g.height) :
    cntF (bfsNext g pc cx cy st d).1 + (bfsNext g pc cx cy st d).2.length ≤
      cntF st.1 + st.2.length := by
  unfold bfsNext
  split
  · exact visitMark_measure _ _ _ _ _ hlen
  · exact le_refl _

theorem foldl_join_eq {α β : Type} (f : α → β → α) :
    ∀ (L : List (List β)) (a : α), L.flatten.foldl f a = L.foldl (fun x l => l.foldl f x) a := by
  intro L
  induction L with
  | nil => intro a; rfl
  | cons l t ih =>
      intro a
      simp only [List.flatten_cons, List.foldl_append, List.foldl_cons]
      exact ih _

theorem foldl_map_eq {α β γ : Type} (gf : β → γ) (f : α → γ → α) :
    ∀ (l : List β) (a : α), (l.map gf).foldl f a = l.foldl (fun x b => f x (gf b)) a := by
  intro l
  induction l with
  | nil => intro a; rfl
  | cons b t ih =>
      intro a
      simp only [List.map_cons, List.foldl_cons]
      exact ih _

end BfsStepLemmas

section BfsMainLemmas

theorem bfs_fold_props (g : Grid) (pc : Color) (cx cy : Int) :
    ∀ (ds : List (Int × Int)) (st : List Bool × List (Int × Int)),
      st.1.length = g.width * g.height →
      ((ds.foldl (bfsNext g pc cx cy) st).1.length = g.width * g.height ∧
       (∀ i, visitedAt st.1 i = true →
         visitedAt (ds.foldl (bfsNext g pc cx cy) st).1 i = true) ∧
       (∀ p ∈ st.2, p ∈ (ds.foldl (bfsNext g pc cx cy) st).2) ∧
       (∀ p ∈ (ds.foldl (bfsNext g pc cx cy) st).2, p ∈ st.2 ∨
         ∃ d ∈ ds, p = ((cx + d.1, cy + d.2) : Int × Int) ∧
           passable g pc (cx + d.1) (cy + d.2)) ∧
       (∀ i, visitedAt (ds.foldl (bfsNext g pc cx cy) st).1 i = true →
         visitedAt st.1 i = true ∨
         ∃ d ∈ ds, i = idx g (cx + d.1) (cy + d.2) ∧ inb g (cx + d.1) (cy + d.2) ∧
           passable g pc (cx + d.1) (cy + d.2) ∧
           ((cx + d.1, cy + d.2) : Int × Int) ∈ (ds.foldl (bfsNext g pc cx cy) st).2) ∧
       (∀ d ∈ ds, passable g pc (cx + d.1) (cy + d.2) →
         visitedAt (ds.foldl (bfsNext g pc cx cy) st).1 (idx g (cx + d.1) (cy + d.2)) = true) ∧
       (cntF (ds.foldl (bfsNext g pc cx cy) st).1 +
          (ds.foldl (bfsNext g pc cx cy) st).2.length ≤
         cntF st.1 + st.2.length)) := by
  intro ds
  induction ds with
  | nil =>
      intro st hlen
      exact ⟨hlen, fun i h => h, fun p hp => hp, fun p hp => Or.inl hp, fun i h => Or.inl h,
        fun d hd => absurd hd (List.not_mem_nil _), le_refl _⟩
  | cons d ds ih =>
      intro st hlen
      rw [List.foldl_cons]
      have hlen1 : (bfsNext g pc cx cy st d).1.length = g.width * g.height := by
        rw [bfsNext_len]; exact hlen
      obtain ⟨jlen, jmono, jqmono, jqnew, jvis, jmarks, jmeas⟩ :=
        ih (bfsNext g pc cx cy st d) hlen1
      refine ⟨jlen, ?_, ?_, ?_, ?_, ?_, ?_⟩
      · exact fun i h => jmono i (bfsNext_mono g pc cx cy st d i h)
      · exact fun p hp => jqmono p (bfsNext_queue_mono g pc cx cy st d p hp)
      · intro p hp
        rcases jqnew p hp with hp1 | ⟨d', hd', he, hpA⟩
        · rcases bfsNext_queue_new g pc cx cy st d p hp1 with h0 | ⟨he, hpA⟩
          · exact Or.inl h0
          · exact Or.inr ⟨d, List.mem_cons_self _ _, he, hpA⟩
        · exact Or.inr ⟨d', List.mem_cons_of_mem _ hd', he, hpA⟩
      · intro i hi
        rcases jvis i hi with hi1 | ⟨d', hd', he, hin', hpA, hq⟩
        · rcases bfsNext_vis_new g pc cx cy st d i hi1 with h0 | ⟨he, hin', hpA, hq⟩
          · exact Or.inl h0
          · exact Or.inr ⟨d, List.mem_cons_self _ _, he, hin', hpA, jqmono _ hq⟩
        · exact Or.inr ⟨d', List.mem_cons_of_mem _ hd', he, hin', hpA, hq⟩
      · intro d' hd' hpA
        rcases List.mem_cons.mp hd' with rfl | hd'
        · exact jmono _ (bfsNext_marks g pc cx cy st d' hlen hpA)
        · exact jmarks d' hd' hpA
      · exact le_trans jmeas (bfsNext_measure g pc cx cy st d hlen)

theorem bfs_iter (g : Grid) (pc : Color) (cx cy : Int) (v : List Bool)
    (rest : List (Int × Int)) (hinv : BfsInv g pc v ((cx, cy) :: rest)) :
    BfsInv g pc (dirs.foldl (bfsNext g pc cx cy) (v, rest)).1
      (dirs.foldl (bfsNext g pc cx cy) (v, rest)).2 ∧
    cntF (dirs.foldl (bfsNext g pc cx cy) (v, rest)).1 +
      (dirs.foldl (bfsNext g pc cx cy) (v, rest)).2.length ≤ cntF v + rest.length ∧
    (∀ i, visitedAt v i = true →
      visitedAt (dirs.foldl (bfsNext g pc cx cy) (v, rest)).1 i = true) := by
  have hreach_c : Reachable g pc cx cy := hinv.reach (cx, cy) (List.mem_cons_self _ _)
  obtain ⟨jlen, jmono, jqmono, jqnew, jvis, jmarks, jmeas⟩ :=
    bfs_fold_props g pc cx cy dirs (v, rest) hinv.len
  have hadj : ∀ d ∈ dirs, ((cx + d.1) - cx).natAbs + ((cy + d.2) - cy).natAbs = 1 := by
    intro d hd
    fin_cases hd <;> simp
  refine ⟨⟨jlen, ?_, ?_, ?_⟩, jmeas, jmono⟩
  · intro p hp
    rcases jqnew p hp with h0 | ⟨d, hd, he, hpA⟩
    · exact hinv.reach p (List.mem_cons_of_mem _ h0)
    · rw [he]
      exact Reachable.step hreach_c (hadj d hd) hpA
  · intro x y hin hv
    rcases jvis _ hv with h0 | ⟨d, hd, he, hin', hpA, _⟩
    · exact hinv.sound x y hin h0
    · obtain ⟨hx, hy⟩ := idx_inj g hin hin' he
      rw [hx, hy]
      exact Reachable.step hreach_c (hadj d hd) hpA
  · intro x y hin hv hnq x' y' hadj' hpA'
    by_cases hxy : x = cx ∧ y = cy
    · obtain ⟨h1, h2⟩ := hxy
      rcases adj_cases hadj' with ⟨hx', hy'⟩ | ⟨hx', hy'⟩ | ⟨hx', hy'⟩ | ⟨hx', hy'⟩
      · have e1 : x' = cx + (1 : Int) := by omega
        have e2 : y' = cy + (0 : Int) := by omega
        rw [e1, e2] at hpA' ⊢
        exact jmarks (1, 0) (by simp [dirs]) hpA'
      · have e1 : x' = cx + (-1 : Int) := by omega
        have e2 : y' = cy + (0 : Int) := by omega
        rw [e1, e2] at hpA' ⊢
        exact jmarks (-1, 0) (by simp [dirs]) hpA'
      · have e1 : x' = cx + (0 : Int) := by omega
        have e2 : y' = cy + (1 : Int) := by omega
        rw [e1, e2] at hpA' ⊢
        exact jmarks (0, 1) (by simp [dirs]) hpA'
      · have e1 : x' = cx + (0 : Int) := by omega
        have e2 : y' = cy + (-1 : Int) := by omega
        rw [e1, e2] at hpA' ⊢
        exact jmarks (0, -1) (by simp [dirs]) hpA'
    · have hvold : visitedAt v (idx g x y) = true := by
        rcases jvis _ hv with h0 | ⟨d, hd, he, hin', hpA, hq⟩
        · exact h0
        · obtain ⟨hx, hy⟩ := idx_inj g hin hin' he
          exfalso
          apply hnq
          rw [show ((x, y) : Int × Int) = (cx + d.1, cy + d.2) from by rw [hx, hy]]
          exact hq
      have hnrest : ((x, y) : Int × Int) ∉ (cx, cy) :: rest := by
        intro hmem
        rcases List.mem_cons.mp hmem with he | hr
        · apply hxy
          exact ⟨congrArg Prod.fst he, congrArg Prod.snd he⟩
        · exact hnq (jqmono _ hr)
      exact jmono _ (hinv.closed x y hin hvold hnrest x' y' hadj' hpA')

theorem bfsLoop_props (g : Grid) (pc : Color) :
    ∀ (fuel : Nat) (v : List Bool) (q : List (Int × Int)),
      BfsInv g pc v q → cntF v + q.length < fuel →
      BfsInv g pc (bfsLoop g pc fuel v q) [] ∧
      (∀ i, visitedAt v i = true → visitedAt (bfsLoop g pc fuel v q) i = true) := by
  intro fuel
  induction fuel with
  | zero => intro v q _ h; exact absurd h (Nat.not_lt_zero _)
  | succ n ih =>
      intro v q hinv hm
      cases q with
      | nil => exact ⟨hinv, fun i h => h⟩
      | cons c rest =>
          obtain ⟨hinv', hmeas, hmono⟩ := bfs_iter g pc c.1 c.2 v rest hinv
          have hm' : cntF (dirs.foldl (bfsNext g pc c.1 c.2) (v, rest)).1 +
              (dirs.foldl (bfsNext g pc c.1 c.2) (v, rest)).2.length < n := by
            simp only [List.length_cons] at hm
            omega
          obtain ⟨h1, h2⟩ := ih _ _ hinv' hm'
          refine ⟨?_, ?_⟩
          · show BfsInv g pc (bfsLoop g pc n (dirs.foldl (bfsNext g pc c.1 c.2) (v, rest)).1
              (dirs.foldl (bfsNext g pc c.1 c.2) (v, rest)).2) []
            exact h1
          · intro i hv
            show visitedAt (bfsLoop g pc n (dirs.foldl (bfsNext g pc c.1 c.2) (v, rest)).1
              (dirs.foldl (bfsNext g pc c.1 c.2) (v, rest)).2) i = true
            exact h2 i (hmono i hv)

theorem visitMark_seedInv (g : Grid) (pc : Color) (st : List Bool × List (Int × Int))
    (x y : Int) (hb : onBoundary g x y) (hs : SeedInv g pc st.1 st.2) :
    SeedInv g pc (visitMark g pc st x y).1 (visitMark g pc st x y).2 := by
  refine ⟨by rw [visitMark_len]; exact hs.len, ?_, ?_, ?_⟩
  · intro p hp
    rcases visitMark_queue_new g pc st x y p hp with h0 | ⟨he, hpA⟩
    · exact hs.reach p h0
    · rw [he]
      exact Reachable.seed hb hpA
  · intro x0 y0 hin hv
    rcases visitMark_vis_new g pc st x y _ hv with h0 | ⟨he, hin', hpA, _⟩
    · exact hs.sound x0 y0 hin h0
    · obtain ⟨hx, hy⟩ := idx_inj g hin hin' he
      subst hx
      subst hy
      exact Reachable.seed hb hpA
  · intro x0 y0 hin hv
    rcases visitMark_vis_new g pc st x y _ hv with h0 | ⟨he, hin', hpA, hq⟩
    · exact visitMark_queue_mono g pc st x y _ (hs.sub x0 y0 hin h0)
    · obtain ⟨hx, hy⟩ := idx_inj g hin hin' he
      subst hx
      subst hy
      exact hq

theorem seedFold_len (g : Grid) (pc : Color) :
    ∀ (ps : List (Int × Int)) (st : List Bool × List (Int × Int)),
      ((ps.foldl (fun st p => visitMark g pc st p.1 p.2) st)).1.length = st.1.length := by
  intro ps
  induction ps with
  | nil => intro st; rfl
  | cons p t ih =>
      intro st
      rw [List.foldl_cons, ih, visitMark_len]

theorem seedFold_mono (g : Grid) (pc : Color) :
    ∀ (ps : List (Int × Int)) (st : List Bool × List (Int × Int)) (i : Nat),
      visitedAt st.1 i = true →
      visitedAt ((ps.foldl (fun st p => visitMark g pc st p.1 p.2) st)).1 i = true := by
  intro ps
  induction ps with
  | nil => intro st i h; exact h
  | cons p t ih =>
      intro st i h
      rw [List.foldl_cons]
      exact ih _ i (visitMark_mono g pc st p.1 p.2 i h)

theorem seedFold_inv (g : Grid) (pc : Color) :
    ∀ (ps : List (Int × Int)), (∀ p ∈ ps, onBoundary g p.1 p.2) →
      ∀ (st : List Bool × List (Int × Int)), SeedInv g pc st.1 st.2 →
      SeedInv g pc ((ps.foldl (fun st p => visitMark g pc st p.1 p.2) st)).1
        ((ps.foldl (fun st p => visitMark g pc st p.1 p.2) st)).2 := by
  intro ps
  induction ps with
  | nil => intro _ st hs; exact hs
  | cons p t ih =>
      intro hbd st hs
      rw [List.foldl_cons]
      exact ih (fun q hq => hbd q (List.mem_cons_of_mem _ hq)) _
        (visitMark_seedInv g pc st p.1 p.2 (hbd p (List.mem_cons_self _ _)) hs)

theorem seedFold_marks (g : Grid) (pc : Color) :
    ∀ (ps : List (Int × Int)) (st : List Bool × List (Int × Int)),
      st.1.length = g.width * g.height →
      ∀ p ∈ ps, passable g pc p.1 p.2 →
      visitedAt ((ps.foldl (fun st p => visitMark g pc st p.1 p.2) st)).1
        (idx g p.1 p.2) = true := by
  intro ps
  induction ps with
  | nil => intro st _ p hp; exact absurd hp (List.not_mem_nil _)
  | cons q t ih =>
      intro st hlen p hp hpA
      rw [List.foldl_cons]
      rcases List.mem_cons.mp hp with rfl | hpt
      · exact seedFold_mono g pc t _ _ (visitMark_marks g pc st p.1 p.2 hlen hpA)
      · exact ih _ (by rw [visitMark_len]; exact hlen) p hpt hpA

theorem seedState_eq (g : Grid) (pc : Color) :
    g.seedState pc =
      (seedPts1 g ++ seedPts2 g).foldl (fun st p => visitMark g pc st p.1 p.2)
        (List.replicate (g.width * g.height) false, []) := by
  rw [List.foldl_append]
  unfold seedPts1 seedPts2
  rw [foldl_join_eq, foldl_join_eq, foldl_map_eq, foldl_map_eq]
  rfl

theorem seedPts_boundary (g : Grid) :
    ∀ p ∈ seedPts1 g ++ seedPts2 g, onBoundary g p.1 p.2 := by
  intro p hp
  rcases List.mem_append.mp hp with h1 | h2
  · obtain ⟨l, hl, hpl⟩ := List.mem_flatten.mp h1
    obtain ⟨x, _, rfl⟩ := List.mem_map.mp hl
    rcases List.mem_cons.mp hpl with rfl | hpl'
    · exact Or.inr (Or.inr (Or.inl rfl))
    · rcases List.mem_cons.mp hpl' with rfl | hnil
      · exact Or.inr (Or.inr (Or.inr rfl))
      · exact absurd hnil (List.not_mem_nil _)
  · obtain ⟨l, hl, hpl⟩ := List.mem_flatten.mp h2
    obtain ⟨y, _, rfl⟩ := List.mem_map.mp hl
    rcases List.mem_cons.mp hpl with rfl | hpl'
    · exact Or.inl rfl
    · rcases List.mem_cons.mp hpl' with rfl | hnil
      · exact Or.inr (Or.inl rfl)
      · exact absurd hnil (List.not_mem_nil _)

theorem visitedAt_replicate (n i : Nat) : visitedAt (List.replicate n false) i = false := by
  unfold visitedAt
  rw [getq_replicate]
  split <;> rfl

theorem seed_inv (g : Grid) (pc : Color) :
    SeedInv g pc (g.seedState pc).1 (g.seedState pc).2 := by
  rw [seedState_eq]
  apply seedFold_inv g pc _ (seedPts_boundary g)
  refine ⟨by simp, ?_, ?_, ?_⟩
  · intro p hp
    exact absurd hp (List.not_mem_nil _)
  · intro x y _ hv
    rw [visitedAt_replicate] at hv
    cases hv
  · intro x y _ hv
    rw [visitedAt_replicate] at hv
    cases hv

theorem mem_seedPts1 (g : Grid) (x : Nat) (hx : x < g.width) :
    (((x : Int), (0 : Int)) ∈ seedPts1 g) ∧
    (((x : Int), (g.height : Int) - 1) ∈ seedPts1 g) := by
  unfold seedPts1
  refine ⟨List.mem_flatten.mpr ⟨[((x : Int), (0 : Int)), ((x : Int), (g.height : Int) - 1)],
      List.mem_map.mpr ⟨x, List.mem_range.mpr hx, rfl⟩, List.mem_cons_self _ _⟩,
    List.mem_flatten.mpr ⟨[((x : Int), (0 : Int)), ((x : Int), (g.height : Int) - 1)],
      List.mem_map.mpr ⟨x, List.mem_range.mpr hx, rfl⟩,
      List.mem_cons_of_mem _ (List.mem_cons_self _ _)⟩⟩

theorem mem_seedPts2 (g : Grid) (y : Nat) (hy : y < g.height) :
    (((0 : Int), (y : Int)) ∈ seedPts2 g) ∧
    ((((g.width : Int) - 1), (y : Int)) ∈ seedPts2 g) := by
  unfold seedPts2
  refine ⟨List.mem_flatten.mpr ⟨[((0 : Int), (y : Int)), (((g.width : Int) - 1), (y : Int))],
      List.mem_map.mpr ⟨y, List.mem_range.mpr hy, rfl⟩, List.mem_cons_self _ _⟩,
    List.mem_flatten.mpr ⟨[((0 : Int), (y : Int)), (((g.width : Int) - 1), (y : Int))],
      List.mem_map.mpr ⟨y, List.mem_range.mpr hy, rfl⟩,
      List.mem_cons_of_mem _ (List.mem_cons_self _ _)⟩⟩

theorem seed_marks_all (g : Grid) (pc : Color) :
    ∀ x y : Int, inb g x y → onBoundary g x y → passable g pc x y →
      visitedAt (g.seedState pc).1 (idx g x y) = true := by
  intro x y hin hb hp
  rw [seedState_eq]
  have hmem : ((x, y) : Int × Int) ∈ seedPts1 g ++ seedPts2 g := by
    obtain ⟨h1, h2, h3, h4⟩ := hin
    have hyy : (y.toNat : Int) = y := by omega
    have hxx : (x.toNat : Int) = x := by omega
    rcases hb with hx0 | hxw | hy0 | hyh
    · refine List.mem_append_right _ ?_
      rw [show ((x, y) : Int × Int) = (((0 : Int), ((y.toNat : Nat) : Int)) : Int × Int)
        from by rw [hx0, hyy]]
      exact (mem_seedPts2 g y.toNat (by omega)).1
    · refine List.mem_append_right _ ?_
      rw [show ((x, y) : Int × Int) =
        (((g.width : Int) - 1, ((y.toNat : Nat) : Int)) : Int × Int) from by rw [hxw, hyy]]
      exact (mem_seedPts2 g y.toNat (by omega)).2
    · refine List.mem_append_left _ ?_
      rw [show ((x, y) : Int × Int) = ((((x.toNat : Nat) : Int), (0 : Int)) : Int × Int)
        from by rw [hy0, hxx]]
      exact (mem_seedPts1 g x.toNat (by omega)).1
    · refine List.mem_append_left _ ?_
      rw [show ((x, y) : Int × Int) =
        ((((x.toNat : Nat) : Int), (g.height : Int) - 1) : Int × Int) from by rw [hyh, hxx]]
      exact (mem_seedPts1 g x.toNat (by omega)).2
  exact seedFold_marks g pc _ _ (by simp) (x, y) hmem hp

theorem bfsVisited_props (g : Grid) (pc : Color) :
    BfsInv g pc (g.bfsVisited pc) [] ∧
    (∀ i, visitedAt (g.seedState pc).1 i = true →
      visitedAt (g.bfsVisited pc) i = true) := by
  have hs := seed_inv g pc
  have hbinv : BfsInv g pc (g.seedState pc).1 (g.seedState pc).2 :=
    ⟨hs.len, hs.reach, hs.sound,
     fun x y hin hv hnq _ _ _ _ => absurd (hs.sub x y hin hv) hnq⟩
  have hfuel : cntF (g.seedState pc).1 + (g.seedState pc).2.length <
      g.width * g.height + (g.seedState pc).2.length + 1 := by
    have h1 : cntF (g.seedState pc).1 ≤ (g.seedState pc).1.length := cntF_le_length _
    have h2 := hs.len
    omega
  exact bfsLoop_props g pc _ _ _ hbinv hfuel

theorem reachable_marked (g : Grid) (pc : Color) {x y : Int}
    (hr : Reachable g pc x y) :
    visitedAt (g.bfsVisited pc) (idx g x y) = true := by
  induction hr with
  | seed hb hp =>
      exact (bfsVisited_props g pc).2 _
        (seed_marks_all g pc _ _ (passable_inb hp) hb hp)
  | step hr0 adj hp ih =>
      exact (bfsVisited_props g pc).1.closed _ _ (Reachable_inb hr0) ih
        (List.not_mem_nil _) _ _ adj hp

theorem bfsVisited_iff (g : Grid) (pc : Color) (x y : Int) (hin : inb g x y) :
    visitedAt (g.bfsVisited pc) (idx g x y) = true ↔ Reachable g pc x y :=
  ⟨fun h => (bfsVisited_props g pc).1.sound x y hin h, reachable_marked g pc⟩

end BfsMainLemmas

section FillLemmas

theorem grid_ext (a b : Grid) (h1 : a.width = b.width) (h2 : a.height = b.height)
    (h3 : a.cells = b.cells) : a = b := by
  cases a
  cases b
  simp_all

theorem passable_of_reachable {g : Grid} {pc : Color} {x y : Int}
    (h : Reachable g pc x y) : passable g pc x y := by
  cases h with
  | seed _ hp => exact hp
  | step _ _ hp => exact hp

theorem index_decomp (w h : Nat) : ∀ i, i < w * h → ∃ x y : Nat, x < w ∧ y < h ∧ i = y * w + x := by
  intro i hi
  have hw : 0 < w := by
    rcases Nat.eq_zero_or_pos w with rfl | hw
    · simp at hi
    · exact hw
  refine ⟨i % w, i / w, Nat.mod_lt _ hw, ?_, ?_⟩
  · rw [Nat.div_lt_iff_lt_mul hw]
    rw [Nat.mul_comm w h] at hi
    exact hi
  · rw [Nat.mul_comm (i / w) w]
    exact (Nat.div_add_mod i w).symm

theorem mem_rowPts (w h : Nat) (x y : Nat) :
    (x, y) ∈ rowPts w h ↔ x < w ∧ y < h := by
  unfold rowPts
  constructor
  · intro hm
    obtain ⟨l, hl, hpl⟩ := List.mem_flatten.mp hm
    obtain ⟨y', hy', rfl⟩ := List.mem_map.mp hl
    obtain ⟨x', hx', he⟩ := List.mem_map.mp hpl
    obtain ⟨rfl, rfl⟩ : x' = x ∧ y' = y := by
      constructor
      · exact congrArg Prod.fst he
      · exact congrArg Prod.snd he
    exact ⟨List.mem_range.mp hx', List.mem_range.mp hy'⟩
  · intro ⟨hx, hy⟩
    exact List.mem_flatten.mpr ⟨(List.range w).map (fun x => (x, y)),
      List.mem_map.mpr ⟨y, List.mem_range.mpr hy, rfl⟩,
      List.mem_map.mpr ⟨x, List.mem_range.mpr hx, rfl⟩⟩

theorem fill_eq_flat (g : Grid) (pc : Color) :
    g.fill_enclosed_area pc =
      (rowPts g.width g.height).foldl
        (fun gg (p : Nat × Nat) =>
          if visitedAt (g.bfsVisited pc) (p.2 * g.width + p.1) = false then
            gg.set (p.1 : Int) (p.2 : Int) (Cell.colored pc)
          else gg) g := by
  unfold Grid.fill_enclosed_area rowPts
  rw [foldl_join_eq]
  simp only [foldl_map_eq]

theorem fill_dims (g : Grid) (pc : Color) :
    (g.fill_enclosed_area pc).width = g.width ∧
    (g.fill_enclosed_area pc).height = g.height ∧
    (g.fill_enclosed_area pc).cells.length = g.cells.length := by
  rw [fill_eq_flat]
  apply foldP _ (fun gg : Grid => gg.width = g.width ∧ gg.height = g.height ∧
    gg.cells.length = g.cells.length)
  · intro gg p _ hp
    split
    · exact ⟨by rw [Grid.width_set]; exact hp.1, by rw [Grid.height_set]; exact hp.2.1,
        by rw [Grid.length_set]; exact hp.2.2⟩
    · exact hp
  · exact ⟨rfl, rfl, rfl⟩

theorem setFold_get (g : Grid) (pc : Color) (v : List Bool) :
    ∀ (ps : List (Nat × Nat)) (G : Grid),
      G.width = g.width → G.height = g.height → G.cells.length = g.width * g.height →
      ∀ (x y : Nat), x < g.width → y < g.height →
        (ps.foldl (fun gg (p : Nat × Nat) =>
            if visitedAt v (p.2 * g.width + p.1) = false then
              gg.set (p.1 : Int) (p.2 : Int) (Cell.colored pc)
            else gg) G).get (x : Int) (y : Int) =
          (if (x, y) ∈ ps ∧ visitedAt v (y * g.width + x) = false
           then some (Cell.colored pc) else G.get (x : Int) (y : Int)) := by
  intro ps
  induction ps with
  | nil =>
      intro G _ _ _ x y _ _
      simp
  | cons p t ih =>
      intro G hW hH hL x y hx hy
      rw [List.foldl_cons]
      by_cases hva : visitedAt v (p.2 * g.width + p.1) = false
      · rw [if_pos hva]
        have hW' : (G.set (p.1 : Int) (p.2 : Int) (Cell.colored pc)).width = g.width := by
          rw [Grid.width_set]; exact hW
        have hH' : (G.set (p.1 : Int) (p.2 : Int) (Cell.colored pc)).height = g.height := by
          rw [Grid.height_set]; exact hH
        have hL' : (G.set (p.1 : Int) (p.2 : Int) (Cell.colored pc)).cells.length =
            g.width * g.height := by
          rw [Grid.length_set]; exact hL
        rw [ih _ hW' hH' hL' x y hx hy]
        by_cases hm : (x, y) ∈ t ∧ visitedAt v (y * g.width + x) = false
        · rw [if_pos hm, if_pos ⟨List.mem_cons_of_mem _ hm.1, hm.2⟩]
        · rw [if_neg hm]
          by_cases hxp : (x, y) = p
          · have hp1 : p.1 = x := by rw [← hxp]
            have hp2 : p.2 = y := by rw [← hxp]
            rw [hp1, hp2] at hva
            rw [if_pos ⟨by rw [← hxp]; exact List.mem_cons_self _ _, hva⟩]
            have hinb : inb G (x : Int) (y : Int) := by
              refine ⟨Int.ofNat_nonneg _, ?_, Int.ofNat_nonneg _, ?_⟩
              · rw [hW]; exact_mod_cast hx
              · rw [hH]; exact_mod_cast hy
            have hwfG : G.WF := by
              show G.cells.length = G.width * G.height
              rw [hW, hH]; exact hL
            rw [hp1, hp2]
            exact Grid.get_set_self G (Cell.colored pc) hwfG hinb
          · have hne : ¬ ((x : Int) = (p.1 : Int) ∧ (y : Int) = (p.2 : Int)) := by
              intro ⟨ex, ey⟩
              apply hxp
              have : x = p.1 := by exact_mod_cast ex
              have : y = p.2 := by exact_mod_cast ey
              simp_all
            rw [Grid.get_set_ne G (Cell.colored pc) hne]
            have hcond : ¬ ((x, y) ∈ p :: t ∧ visitedAt v (y * g.width + x) = false) := by
              intro ⟨hmem, hunv⟩
              rcases List.mem_cons.mp hmem with he | ht
              · exact hxp he
              · exact hm ⟨ht, hunv⟩
            rw [if_neg hcond]
      · rw [if_neg hva]
        rw [ih _ hW hH hL x y hx hy]
        by_cases hm : (x, y) ∈ t ∧ visitedAt v (y * g.width + x) = false
        · rw [if_pos hm, if_pos ⟨List.mem_cons_of_mem _ hm.1, hm.2⟩]
        · rw [if_neg hm]
          have hcond : ¬ ((x, y) ∈ p :: t ∧ visitedAt v (y * g.width + x) = false) := by
            intro ⟨hmem, hunv⟩
            rcases List.mem_cons.mp hmem with he | ht
            · apply hva
              have hp1 : p.1 = x := by rw [← he]
              have hp2 : p.2 = y := by rw [← he]
              rw [hp1, hp2]
              exact hunv
            · exact hm ⟨ht, hunv⟩
          rw [if_neg hcond]

theorem fill_get_nat (g : Grid) (pc : Color) (hwf : g.WF) (x y : Nat)
    (hx : x < g.width) (hy : y < g.height) :
    (g.fill_enclosed_area pc).get (x : Int) (y : Int) =
      (if visitedAt (g.bfsVisited pc) (y * g.width + x) = false
       then some (Cell.colored pc) else g.get (x : Int) (y : Int)) := by
  rw [fill_eq_flat]
  rw [setFold_get g pc (g.bfsVisited pc) (rowPts g.width g.height) g rfl rfl hwf x y hx hy]
  have hmem : (x, y) ∈ rowPts g.width g.height := (mem_rowPts _ _ _ _).mpr ⟨hx, hy⟩
  simp [hmem]

theorem colorAt_get {g : Grid} {x y : Int} {c : Cell} (h : g.get x y = some c) :
    colorAt g x y = c.char.bg := by
  unfold colorAt
  rw [h]

theorem idx_nat (g : Grid) (x y : Nat) :
    idx g (x : Int) (y : Int) = y * g.width + x := by
  unfold idx
  rw [Int.toNat_natCast, Int.toNat_natCast]

theorem fill_get_reach (g : Grid) (pc : Color) (hwf : g.WF) {x y : Int}
    (hin : inb g x y) :
    (Reachable g pc x y → (g.fill_enclosed_area pc).get x y = g.get x y) ∧
    (¬ Reachable g pc x y →
      (g.fill_enclosed_area pc).get x y = some (Cell.colored pc)) := by
  obtain ⟨h1, h2, h3, h4⟩ := hin
  have hxx : ((x.toNat : Nat) : Int) = x := by omega
  have hyy : ((y.toNat : Nat) : Int) = y := by omega
  have hx : x.toNat < g.width := by omega
  have hy : y.toNat < g.height := by omega
  have hidx : idx g x y = y.toNat * g.width + x.toNat := rfl
  have hget := fill_get_nat g pc hwf x.toNat y.toNat hx hy
  rw [hxx, hyy] at hget
  have hiff := bfsVisited_iff g pc x y ⟨h1, h2, h3, h4⟩
  rw [hidx] at hiff
  constructor
  · intro hr
    have hvis : visitedAt (g.bfsVisited pc) (y.toNat * g.width + x.toNat) = true :=
      hiff.mpr hr
    rw [hget, if_neg (by rw [hvis]; exact fun h => Bool.true_eq_false.mp h)]
  · intro hnr
    have hvis : visitedAt (g.bfsVisited pc) (y.toNat * g.width + x.toNat) = false := by
      rcases Bool.eq_false_or_eq_true (visitedAt (g.bfsVisited pc)
        (y.toNat * g.width + x.toNat)) with ht | hf
      · exact absurd (hiff.mp ht) hnr
      · exact hf
    rw [hget, if_pos hvis]

theorem inb_fill (g : Grid) (pc : Color) (x y : Int) :
    inb (g.fill_enclosed_area pc) x y ↔ inb g x y := by
  unfold inb
  rw [(fill_dims g pc).1, (fill_dims g pc).2.1]

theorem fill_wf (g : Grid) (pc : Color) (hwf : g.WF) : (g.fill_enclosed_area pc).WF := by
  show (g.fill_enclosed_area pc).cells.length =
    (g.fill_enclosed_area pc).width * (g.fill_enclosed_area pc).height
  rw [(fill_dims g pc).1, (fill_dims g pc).2.1, (fill_dims g pc).2.2]
  exact hwf

theorem passable_fill_iff (g : Grid) (pc : Color) (hwf : g.WF) (x y : Int) :
    passable (g.fill_enclosed_area pc) pc x y ↔ Reachable g pc x y := by
  constructor
  · intro ⟨c, hc, hbg⟩
    have hin : inb g x y := (inb_fill g pc x y).mp ((g.fill_enclosed_area pc).inb_of_get hc)
    by_contra hnr
    have := (fill_get_reach g pc hwf hin).2 hnr
    rw [this] at hc
    have : c = Cell.colored pc := by
      injection hc with hc'
      exact hc'.symm
    rw [this] at hbg
    exact hbg rfl
  · intro hr
    have hin := Reachable_inb hr
    have hfg := (fill_get_reach g pc hwf hin).1 hr
    obtain ⟨c, hc, hbg⟩ := passable_of_reachable hr
    exact ⟨c, by rw [hfg]; exact hc, hbg⟩

theorem onBoundary_fill (g : Grid) (pc : Color) (x y : Int) :
    onBoundary (g.fill_enclosed_area pc) x y ↔ onBoundary g x y := by
  unfold onBoundary
  rw [(fill_dims g pc).1, (fill_dims g pc).2.1]

theorem Reachable_fill_iff (g : Grid) (pc : Color) (hwf : g.WF) (x y : Int) :
    Reachable (g.fill_enclosed_area pc) pc x y ↔ Reachable g pc x y := by
  constructor
  · intro h
    exact (passable_fill_iff g pc hwf x y).mp (passable_of_reachable h)
  · intro h
    induction h with
    | seed hb hp =>
        exact Reachable.seed ((onBoundary_fill g pc _ _).mpr hb)
          ((passable_fill_iff g pc hwf _ _).mpr (Reachable.seed hb hp))
    | step h0 adj hp ih =>
        exact Reachable.step ih adj
          ((passable_fill_iff g pc hwf _ _).mpr (Reachable.step h0 adj hp))

end FillLemmas

section ClaimC1C5C6

/-- Claim C1: after `fill_enclosed_area(player_color)`, the cells that are now
`player_color` but were not before are exactly the cells (among those not
already `player_color`) that are unreachable from the grid boundary by
4-neighbor steps avoiding `player_color` cells, and every boundary-reachable
cell keeps its cell value unchanged. -/
theorem claim_C1_fill_characterization (g : Grid) (pc : Color) (hwf : g.WF) :
    ∀ x y : Int, inb g x y →
      (((colorAt (g.fill_enclosed_area pc) x y = some pc) ∧ colorAt g x y ≠ some pc) ↔
        (¬ Reachable g pc x y ∧ colorAt g x y ≠ some pc)) ∧
      (Reachable g pc x y → (g.fill_enclosed_area pc).get x y = g.get x y) := by
  intro x y hin
  have hfr := fill_get_reach g pc hwf hin
  constructor
  · constructor
    · rintro ⟨hnew, hold⟩
      refine ⟨?_, hold⟩
      intro hr
      have heq := hfr.1 hr
      have hca : colorAt (g.fill_enclosed_area pc) x y = colorAt g x y := by
        unfold colorAt
        rw [heq]
      rw [hca] at hnew
      exact hold hnew
    · rintro ⟨hnr, hold⟩
      refine ⟨?_, hold⟩
      rw [colorAt_get (hfr.2 hnr)]
      rfl
  · exact hfr.1

/-- Claim C1 witness: the characterization instantiated on the 1×1 blank grid. -/
theorem claim_C1_witness :
    (((colorAt (g11.fill_enclosed_area Color.RED) 0 0 = some Color.RED) ∧
        colorAt g11 0 0 ≠ some Color.RED) ↔
      (¬ Reachable g11 Color.RED 0 0 ∧ colorAt g11 0 0 ≠ some Color.RED)) ∧
    (Reachable g11 Color.RED 0 0 →
      (g11.fill_enclosed_area Color.RED).get 0 0 = g11.get 0 0) :=
  claim_C1_fill_characterization g11 Color.RED (by decide) 0 0 (by decide)

/-- Claim C5: `fill_enclosed_area` is idempotent — a second invocation with
the same color changes no cell. -/
theorem claim_C5_fill_idempotent (g : Grid) (pc : Color) (hwf : g.WF) :
    (g.fill_enclosed_area pc).fill_enclosed_area pc = g.fill_enclosed_area pc := by
  have hwf1 : (g.fill_enclosed_area pc).WF := fill_wf g pc hwf
  apply grid_ext
  · rw [(fill_dims _ pc).1]
  · rw [(fill_dims _ pc).2.1]
  · apply getq_ext
    intro i
    by_cases hi : i < g.width * g.height
    · obtain ⟨x, y, hx, hy, rfl⟩ := index_decomp g.width g.height i hi
      have key : ∀ (G : Grid), G.width = g.width → G.height = g.height →
          G.cells.get? (y * g.width + x) = G.get (x : Int) (y : Int) := by
        intro G hW hH
        have hinb : inb G (x : Int) (y : Int) :=
          ⟨Int.ofNat_nonneg _, by rw [hW]; exact_mod_cast hx,
           Int.ofNat_nonneg _, by rw [hH]; exact_mod_cast hy⟩
        rw [Grid.get_inb _ hinb, idx_nat, hW]
      have hW1 : (g.fill_enclosed_area pc).width = g.width := (fill_dims g pc).1
      have hH1 : (g.fill_enclosed_area pc).height = g.height := (fill_dims g pc).2.1
      have hW2 : ((g.fill_enclosed_area pc).fill_enclosed_area pc).width = g.width := by
        rw [(fill_dims _ pc).1, hW1]
      have hH2 : ((g.fill_enclosed_area pc).fill_enclosed_area pc).height = g.height := by
        rw [(fill_dims _ pc).2.1, hH1]
      rw [key _ hW2 hH2, key _ hW1 hH1]
      have hin_g : inb g (x : Int) (y : Int) :=
        ⟨Int.ofNat_nonneg _, by exact_mod_cast hx, Int.ofNat_nonneg _, by exact_mod_cast hy⟩
      have hin_f : inb (g.fill_enclosed_area pc) (x : Int) (y : Int) :=
        (inb_fill g pc _ _).mpr hin_g
      have hfr2 := fill_get_reach (g.fill_enclosed_area pc) pc hwf1 hin_f
      by_cases hr : Reachable g pc (x : Int) (y : Int)
      · rw [hfr2.1 ((Reachable_fill_iff g pc hwf _ _).mpr hr)]
      · have h2 := hfr2.2 (fun hr2 => hr ((Reachable_fill_iff g pc hwf _ _).mp hr2))
        have h1 := (fill_get_reach g pc hwf hin_g).2 hr
        rw [h2, h1]
    · have hl1 : (g.fill_enclosed_area pc).cells.length = g.cells.length :=
        (fill_dims g pc).2.2
      have hl2 : ((g.fill_enclosed_area pc).fill_enclosed_area pc).cells.length =
          g.cells.length := by
        rw [(fill_dims _ pc).2.2, hl1]
      rw [getq_none _ _ (by rw [hl2, hwf]; omega), getq_none _ _ (by rw [hl1, hwf]; omega)]

/-- Claim C5 witness: idempotence on the 1×1 blank grid. -/
theorem claim_C5_witness :
    (g11.fill_enclosed_area Color.RED).fill_enclosed_area Color.RED =
      g11.fill_enclosed_area Color.RED :=
  claim_C5_fill_idempotent g11 Color.RED (by decide)

/-- Claim C6: if every boundary cell is already the player's color, the fill
colors the entire grid with that color (handled by the normal path, no
error). -/
theorem claim_C6_full_boundary (g : Grid) (pc : Color) (hwf : g.WF)
    (hb : ∀ x : Nat, x < g.width → ∀ y : Nat, y < g.height →
      (x = 0 ∨ x = g.width - 1 ∨ y = 0 ∨ y = g.height - 1) →
      colorAt g (x : Int) (y : Int) = some pc) :
    ∀ x y : Int, inb g x y →
      (g.fill_enclosed_area pc).get x y = some (Cell.colored pc) := by
  have hnr : ∀ x y : Int, ¬ Reachable g pc x y := by
    intro x y hr
    induction hr with
    | seed hb' hp =>
        rename_i x0 y0
        obtain ⟨c, hc, hbg⟩ := hp
        obtain ⟨h1, h2, h3, h4⟩ := g.inb_of_get hc
        have hxx : ((x0.toNat : Nat) : Int) = x0 := by omega
        have hyy : ((y0.toNat : Nat) : Int) = y0 := by omega
        have hbnd : x0.toNat = 0 ∨ x0.toNat = g.width - 1 ∨
            y0.toNat = 0 ∨ y0.toNat = g.height - 1 := by
          rcases hb' with h | h | h | h
          · exact Or.inl (by omega)
          · exact Or.inr (Or.inl (by omega))
          · exact Or.inr (Or.inr (Or.inl (by omega)))
          · exact Or.inr (Or.inr (Or.inr (by omega)))
        have hcb := hb x0.toNat (by omega) y0.toNat (by omega) hbnd
        rw [hxx, hyy] at hcb
        rw [colorAt_get hc] at hcb
        exact hbg hcb
    | step h0 adj hp ih => exact ih
  intro x y hin
  exact (fill_get_reach g pc hwf hin).2 (hnr x y)

/-- Claim C6 witness: the 2×2 all-red grid (whose boundary is every cell)
fills completely; shown here at cell (0, 0). -/
theorem claim_C6_witness :
    (g22.fill_enclosed_area Color.RED).get 0 0 = some (Cell.colored Color.RED) :=
  claim_C6_full_boundary g22 Color.RED (by decide) (by decide) 0 0 (by decide)

end ClaimC1C5C6

section StepLemmas

theorem ratFloor_intFloor (q : ℚ) : ratFloor q = ⌊q⌋ := by
  rw [Rat.floor_def]
  rfl

theorem ratFloor_eq {q : ℚ} {n : ℤ} (h1 : (n : ℚ) ≤ q) (h2 : q < n + 1) : ratFloor q = n := by
  rw [ratFloor_intFloor]
  exact Int.floor_eq_iff.mpr ⟨h1, by exact_mod_cast h2⟩

theorem Player.update_x (p : Player) (ft : ℚ) : (p.update ft).x = p.x + p.dx * ft * 4 := rfl

theorem Player.update_y (p : Player) (ft : ℚ) : (p.update ft).y = p.y + p.dy * ft * 4 := rfl

theorem Player.update_trail (p : Player) (ft : ℚ) : (p.update ft).trail = p.trail := rfl

theorem Player.update_color (p : Player) (ft : ℚ) : (p.update ft).color = p.color := rfl

theorem wrapPlayer_x (grid : Grid) (p1 : Player) (nx ny : Int) :
    (wrapPlayer grid p1 nx ny).x =
      (if nx < 0 then ((grid.width : ℚ) - 1)
       else if (grid.width : Int) ≤ nx then 0
       else p1.x) := by
  unfold wrapPlayer
  split_ifs <;> first | rfl | (exfalso; omega)

theorem wrapPlayer_y (grid : Grid) (p1 : Player) (nx ny : Int) :
    (wrapPlayer grid p1 nx ny).y =
      (if ny < 0 then ((grid.height : ℚ) - 1)
       else if (grid.height : Int) ≤ ny then 0
       else p1.y) := by
  unfold wrapPlayer
  split_ifs <;> first | rfl | (exfalso; omega)

theorem wrapPlayer_trail (grid : Grid) (p1 : Player) (nx ny : Int) :
    (wrapPlayer grid p1 nx ny).trail = p1.trail := by
  unfold wrapPlayer
  split_ifs <;> rfl

theorem wrapPlayer_color (grid : Grid) (p1 : Player) (nx ny : Int) :
    (wrapPlayer grid p1 nx ny).color = p1.color := by
  unfold wrapPlayer
  split_ifs <;> rfl

theorem stepPlayer_snd (grid : Grid) (p : Player) (ft : ℚ) :
    ∃ tr : List (Int × Int),
      (stepPlayer grid p ft).2 =
        { wrapPlayer grid (p.update ft) (ratFloor ((p.update ft).x))
            (ratFloor ((p.update ft).y)) with trail := tr } := by
  simp only [stepPlayer, Player.grid_position]
  cases hg : grid.get (ratFloor (p.update ft).x) (ratFloor (p.update ft).y) with
  | none =>
      refine ⟨p.trail ++ [(ratFloor (p.update ft).x, ratFloor (p.update ft).y)], rfl⟩
  | some cell =>
      dsimp only
      by_cases hbg : cell.char.bg = some p.color
      · by_cases ht : p.trail = []
        · rw [if_pos hbg, if_pos ht]
          exact ⟨(wrapPlayer grid (p.update ft) (ratFloor (p.update ft).x)
            (ratFloor (p.update ft).y)).trail, rfl⟩
        · rw [if_pos hbg, if_neg ht]
          exact ⟨[], rfl⟩
      · rw [if_neg hbg]
        refine ⟨p.trail ++ [(ratFloor (p.update ft).x, ratFloor (p.update ft).y)], rfl⟩

theorem stepPlayer_x (grid : Grid) (p : Player) (ft : ℚ) :
    ((stepPlayer grid p ft).2).x =
      (if ratFloor ((p.update ft).x) < 0 then ((grid.width : ℚ) - 1)
       else if (grid.width : Int) ≤ ratFloor ((p.update ft).x) then 0
       else (p.update ft).x) := by
  obtain ⟨tr, htr⟩ := stepPlayer_snd grid p ft
  rw [htr]
  exact wrapPlayer_x grid (p.update ft) _ _

theorem stepPlayer_y (grid : Grid) (p : Player) (ft : ℚ) :
    ((stepPlayer grid p ft).2).y =
      (if ratFloor ((p.update ft).y) < 0 then ((grid.height : ℚ) - 1)
       else if (grid.height : Int) ≤ ratFloor ((p.update ft).y) then 0
       else (p.update ft).y) := by
  obtain ⟨tr, htr⟩ := stepPlayer_snd grid p ft
  rw [htr]
  exact wrapPlayer_y grid (p.update ft) _ _

theorem stepPlayer_not_own (grid : Grid) (p : Player) (ft : ℚ)
    (h : colorAt grid (ratFloor ((p.update ft).x)) (ratFloor ((p.update ft).y)) ≠
      some p.color) :
    (stepPlayer grid p ft).1 =
      grid.set (ratFloor ((p.update ft).x)) (ratFloor ((p.update ft).y))
        (Cell.colored p.color) ∧
    ((stepPlayer grid p ft).2).trail =
      p.trail ++ [(ratFloor ((p.update ft).x), ratFloor ((p.update ft).y))] := by
  simp only [stepPlayer, Player.grid_position]
  unfold colorAt at h
  cases hg : grid.get (ratFloor (p.update ft).x) (ratFloor (p.update ft).y) with
  | none => exact ⟨rfl, rfl⟩
  | some cell =>
      rw [hg] at h
      have hbg : cell.char.bg ≠ some p.color := h
      dsimp only
      rw [if_neg hbg]
      exact ⟨rfl, rfl⟩

theorem stepPlayer_own_empty (grid : Grid) (p : Player) (ft : ℚ)
    (h : colorAt grid (ratFloor ((p.update ft).x)) (ratFloor ((p.update ft).y)) =
      some p.color)
    (ht : p.trail = []) :
    (stepPlayer grid p ft).1 = grid ∧ ((stepPlayer grid p ft).2).trail = [] := by
  simp only [stepPlayer, Player.grid_position]
  unfold colorAt at h
  cases hg : grid.get (ratFloor (p.update ft).x) (ratFloor (p.update ft).y) with
  | none => rw [hg] at h; simp at h
  | some cell =>
      rw [hg] at h
      have hbg : cell.char.bg = some p.color := by simpa using h
      dsimp only
      rw [if_pos hbg, if_pos ht]
      refine ⟨rfl, ?_⟩
      show (wrapPlayer grid (p.update ft) (ratFloor (p.update ft).x)
        (ratFloor (p.update ft).y)).trail = []
      rw [wrapPlayer_trail]
      exact ht

theorem stepPlayer_own_fill (grid : Grid) (p : Player) (ft : ℚ)
    (h : colorAt grid (ratFloor ((p.update ft).x)) (ratFloor ((p.update ft).y)) =
      some p.color)
    (ht : p.trail ≠ []) :
    (stepPlayer grid p ft).1 = grid.fill_enclosed_area p.color ∧
    ((stepPlayer grid p ft).2).trail = [] := by
  simp only [stepPlayer, Player.grid_position]
  unfold colorAt at h
  cases hg : grid.get (ratFloor (p.update ft).x) (ratFloor (p.update ft).y) with
  | none => rw [hg] at h; simp at h
  | some cell =>
      rw [hg] at h
      have hbg : cell.char.bg = some p.color := by simpa using h
      dsimp only
      rw [if_pos hbg, if_neg ht]
      exact ⟨rfl, rfl⟩

theorem update_singleton (g : Grid) (i : Nat) (p : Player) (ft : ℚ) (b : Bool) :
    Game.update ⟨g, [(i, p)], b⟩ ft =
      ⟨(stepPlayer g p ft).1, [(i, (stepPlayer g p ft).2)], b⟩ := by
  rfl

theorem wrapPlayer_dx (grid : Grid) (p1 : Player) (nx ny : Int) :
    (wrapPlayer grid p1 nx ny).dx = p1.dx := by
  unfold wrapPlayer
  split_ifs <;> rfl

theorem wrapPlayer_dy (grid : Grid) (p1 : Player) (nx ny : Int) :
    (wrapPlayer grid p1 nx ny).dy = p1.dy := by
  unfold wrapPlayer
  split_ifs <;> rfl

theorem stepPlayer_color (grid : Grid) (p : Player) (ft : ℚ) :
    ((stepPlayer grid p ft).2).color = p.color := by
  obtain ⟨tr, htr⟩ := stepPlayer_snd grid p ft
  rw [htr]
  show (wrapPlayer grid (p.update ft) _ _).color = p.color
  rw [wrapPlayer_color]
  rfl

theorem stepPlayer_dx (grid : Grid) (p : Player) (ft : ℚ) :
    ((stepPlayer grid p ft).2).dx = p.dx := by
  obtain ⟨tr, htr⟩ := stepPlayer_snd grid p ft
  rw [htr]
  show (wrapPlayer grid (p.update ft) _ _).dx = p.dx
  rw [wrapPlayer_dx]
  rfl

theorem stepPlayer_dy (grid : Grid) (p : Player) (ft : ℚ) :
    ((stepPlayer grid p ft).2).dy = p.dy := by
  obtain ⟨tr, htr⟩ := stepPlayer_snd grid p ft
  rw [htr]
  show (wrapPlayer grid (p.update ft) _ _).dy = p.dy
  rw [wrapPlayer_dy]
  rfl

theorem player_ext (a b : Player) (h1 : a.x = b.x) (h2 : a.y = b.y)
    (h3 : a.color = b.color) (h4 : a.dx = b.dx) (h5 : a.dy = b.dy)
    (h6 : a.trail = b.trail) : a = b := by
  cases a
  cases b
  simp_all

theorem step_left_oob (p : Player) (hx : p.x = 0) (hy : p.y = 0) (hdx : p.dx = -1)
    (hdy : p.dy = 0) (hc : p.color = Color.RED) :
    stepPlayer gridC4 p 1 =
      (gridC4, { x := 0, y := 0, color := Color.RED, dx := -1, dy := 0,
                 trail := p.trail ++ [(-4, 0)] }) := by
  have hux : (p.update 1).x = -4 := by
    rw [Player.update_x, hx, hdx]
    norm_num
  have huy : (p.update 1).y = 0 := by
    rw [Player.update_y, hy, hdy]
    norm_num
  have hnx : ratFloor ((p.update 1).x) = -4 := by
    rw [hux]
    decide
  have hny : ratFloor ((p.update 1).y) = 0 := by
    rw [huy]
    decide
  have hco : colorAt gridC4 (ratFloor ((p.update 1).x)) (ratFloor ((p.update 1).y)) ≠
      some p.color := by
    rw [hnx, hny, hc]
    decide
  obtain ⟨hgrid, htrail⟩ := stepPlayer_not_own gridC4 p 1 hco
  have hgrid' : (stepPlayer gridC4 p 1).1 = gridC4 := by
    rw [hgrid, hnx, hny, hc]
    decide
  have hp' : (stepPlayer gridC4 p 1).2 =
      { x := 0, y := 0, color := Color.RED, dx := -1, dy := 0,
        trail := p.trail ++ [(-4, 0)] } := by
    apply player_ext
    · rw [stepPlayer_x, hnx]
      norm_num [gridC4]
    · rw [stepPlayer_y, hny]
      show (if (0 : Int) < 0 then ((gridC4.height : ℚ) - 1)
        else if (gridC4.height : Int) ≤ 0 then 0 else (p.update 1).y) = 0
      rw [if_neg (by decide), if_neg (by decide)]
      exact huy
    · rw [stepPlayer_color, hc]
    · rw [stepPlayer_dx, hdx]
    · rw [stepPlayer_dy, hdy]
    · rw [htrail, hnx, hny]
  exact Prod.ext hgrid' hp'

end StepLemmas

section ClaimC7C8C9C10

/-- Claim C7: for out-of-bounds coordinates `Grid.get` returns `none` and
`Grid.set` leaves the grid unchanged; for in-bounds coordinates `get` returns
the stored cell and `set` replaces exactly the addressed cell, leaving every
other coordinate unchanged.  Both functions are total, so no error is ever
raised. -/
theorem claim_C7_get_set (g : Grid) (x y : Int) (c : Cell) :
    (¬ inb g x y → g.get x y = none ∧ g.set x y c = g) ∧
    (inb g x y → g.WF →
      (g.get x y = g.cells.get? (idx g x y) ∧ ∃ cell, g.get x y = some cell) ∧
      (g.set x y c).get x y = some c ∧
      ∀ x' y' : Int, ¬ (x' = x ∧ y' = y) → (g.set x y c).get x' y' = g.get x' y') := by
  refine ⟨fun h => ⟨g.get_oob h, g.set_oob c h⟩, fun h hwf => ⟨⟨g.get_inb h, g.get_some hwf h⟩, g.get_set_self c hwf h, fun x' y' hne => g.get_set_ne c hne⟩⟩

/-- Claim C7 witness: concrete instances of both halves on the 1×1 grid. -/
theorem claim_C7_witness :
    (g11.get 3 5 = none ∧ g11.set 3 5 Cell.blank = g11) ∧
    ((g11.get 0 0 = g11.cells.get? (idx g11 0 0) ∧ ∃ cell, g11.get 0 0 = some cell) ∧
      (g11.set 0 0 (Cell.colored Color.RED)).get 0 0 = some (Cell.colored Color.RED) ∧
      ∀ x' y' : Int, ¬ (x' = 0 ∧ y' = 0) →
        (g11.set 0 0 (Cell.colored Color.RED)).get x' y' = g11.get x' y') :=
  ⟨(claim_C7_get_set g11 3 5 Cell.blank).1 (by decide),
   (claim_C7_get_set g11 0 0 (Cell.colored Color.RED)).2 (by decide) (by decide)⟩

theorem lookup_filter_self (l : List (Nat × Player)) (i : Nat) :
    lookupId (l.filter (fun kv => kv.1 != i)) i = none := by
  induction l with
  | nil => rfl
  | cons kv t ih =>
      rw [List.filter_cons]
      by_cases h : kv.1 = i
      · rw [if_neg (by simp [h])]
        exact ih
      · rw [if_pos (by simp [h])]
        show lookupId (kv :: t.filter (fun kv => kv.1 != i)) i = none
        simp only [lookupId]
        rw [if_neg h]
        exact ih

theorem lookup_filter_ne (l : List (Nat × Player)) (i j : Nat) (h : j ≠ i) :
    lookupId (l.filter (fun kv => kv.1 != i)) j = lookupId l j := by
  induction l with
  | nil => rfl
  | cons kv t ih =>
      rw [List.filter_cons]
      by_cases hk : kv.1 = i
      · have hkj : kv.1 ≠ j := by omega
        rw [if_neg (by simp [hk])]
        rw [ih]
        show lookupId t j = lookupId (kv :: t) j
        simp only [lookupId]
        rw [if_neg hkj]
      · rw [if_pos (by simp [hk])]
        show lookupId (kv :: t.filter (fun kv => kv.1 != i)) j = lookupId (kv :: t) j
        simp only [lookupId]
        by_cases hj : kv.1 = j
        · rw [if_pos hj, if_pos hj]
        · rw [if_neg hj, if_neg hj, ih]

theorem filter_ne_idem (l : List (Nat × Player)) (i : Nat) :
    (l.filter (fun kv => kv.1 != i)).filter (fun kv => kv.1 != i) =
      l.filter (fun kv => kv.1 != i) := by
  induction l with
  | nil => rfl
  | cons kv t ih =>
      rw [List.filter_cons]
      by_cases h : kv.1 = i
      · rw [if_neg (by simp [h])]
        exact ih
      · rw [if_pos (by simp [h]), List.filter_cons, if_pos (by simp [h]), ih]

theorem filter_ne_all (l : List (Nat × Player)) (i : Nat)
    (h : ∀ kv ∈ l, kv.1 ≠ i) : l.filter (fun kv => kv.1 != i) = l := by
  induction l with
  | nil => rfl
  | cons kv t ih =>
      have h1 : kv.1 ≠ i := h kv (List.mem_cons_self _ _)
      rw [List.filter_cons, if_pos (by simp [h1]),
        ih (fun kv' hkv' => h kv' (List.mem_cons_of_mem _ hkv'))]

/-- Claim C8: `Game.remove_player` removes exactly the given id from the
player mapping, leaves the grid (and the running flag) unchanged, and is
idempotent; removing an id that is not present changes nothing.  It is a
total function, so no error is raised. -/
theorem claim_C8_remove_player (game : Game) (i : Nat) :
    (game.remove_player i).grid = game.grid ∧
    (game.remove_player i).running = game.running ∧
    lookupId (game.remove_player i).players i = none ∧
    (∀ j : Nat, j ≠ i → lookupId (game.remove_player i).players j = lookupId game.players j) ∧
    (game.remove_player i).remove_player i = game.remove_player i ∧
    ((∀ kv ∈ game.players, kv.1 ≠ i) → game.remove_player i = game) := by
  refine ⟨rfl, rfl, lookup_filter_self _ _, fun j hj => lookup_filter_ne _ _ _ hj, ?_, ?_⟩
  · unfold Game.remove_player
    simp only
    rw [filter_ne_idem]
  · intro h
    unfold Game.remove_player
    rw [filter_ne_all _ _ h]

/-- Claim C8 witness: on the two-player fixture game, removing id 0 keeps
player 1 and the grid, and removing an absent id 5 is the identity. -/
theorem claim_C8_witness :
    (gameAB.remove_player 0).grid = gameAB.grid ∧
    lookupId (gameAB.remove_player 0).players 1 = lookupId gameAB.players 1 ∧
    gameAB.remove_player 5 = gameAB :=
  ⟨(claim_C8_remove_player gameAB 0).1,
   (claim_C8_remove_player gameAB 0).2.2.2.1 1 (by decide),
   (claim_C8_remove_player gameAB 5).2.2.2.2.2 (by decide)⟩

/-- Claim C9: `parse_command` returns the heading for exactly the strings
that, after stripping surrounding whitespace, match one of the four tokens
`UP`, `DOWN`, `LEFT`, `RIGHT` ignoring letter case; every other string maps
to `none` (the token is ignored and no error is raised — the function is
total). -/
theorem claim_C9_parse (cmd : List Char) :
    (∀ k : Key, parse_command cmd = some k ↔ caseless (pyStrip cmd) (keyWord k)) ∧
    (parse_command cmd = none ↔ ∀ k : Key, ¬ caseless (pyStrip cmd) (keyWord k)) := by
  have hfix : ∀ k : Key, (keyWord k).map Char.toUpper = keyWord k := by
    intro k; cases k <;> decide
  have hcl : ∀ k : Key, caseless (pyStrip cmd) (keyWord k) ↔
      pyUpper (pyStrip cmd) = keyWord k := by
    intro k
    unfold caseless pyUpper
    rw [hfix k]
  constructor
  · intro k
    rw [hcl k]
    simp only [parse_command]
    split_ifs with h1 h2 h3 h4 <;> cases k <;> simp_all [keyWord]
  · simp only [hcl]
    simp only [parse_command]
    split_ifs with h1 h2 h3 h4
    · constructor
      · intro h; simp at h
      · intro hall; exact absurd h1 (hall Key.UP)
    · constructor
      · intro h; simp at h
      · intro hall; exact absurd h2 (hall Key.DOWN)
    · constructor
      · intro h; simp at h
      · intro hall; exact absurd h3 (hall Key.LEFT)
    · constructor
      · intro h; simp at h
      · intro hall; exact absurd h4 (hall Key.RIGHT)
    · constructor
      · intro _ k
        cases k
        · exact h1
        · exact h2
        · exact h3
        · exact h4
      · intro _; rfl

/-- Claim C10: the boundary policy is wrap-around by edge teleport.  After
`Player.update`, if the floored x-coordinate is negative the stored x becomes
`width - 1`; if it reaches `width` the stored x becomes `0`; otherwise the
exact coordinate is kept — and symmetrically for y with `height`. -/
theorem claim_C10_wrap (grid : Grid) (p : Player) (ft : ℚ) :
    ((stepPlayer grid p ft).2).x =
      (if ratFloor ((p.update ft).x) < 0 then ((grid.width : ℚ) - 1)
       else if (grid.width : Int) ≤ ratFloor ((p.update ft).x) then 0
       else (p.update ft).x) ∧
    ((stepPlayer grid p ft).2).y =
      (if ratFloor ((p.update ft).y) < 0 then ((grid.height : ℚ) - 1)
       else if (grid.height : Int) ≤ ratFloor ((p.update ft).y) then 0
       else (p.update ft).y) :=
  ⟨stepPlayer_x grid p ft, stepPlayer_y grid p ft⟩

end ClaimC7C8C9C10

section ClaimC2C3C4

/-- Claim C2 evidence: on a 2×1 blank grid with a red player at x = -1/2,
one simulation step wraps the stored x to `width - 1 = 1` but performs the
cell read, the trail append and the cell write at the stale pre-wrap floored
position `(-1, 0)`, which is out of bounds: the grid is unchanged (the write
was a no-op on a `none` read) and the trail records the out-of-bounds pair
`(-1, 0)` — contradicting the claim that the read/append/write coordinates
are the wrapped in-bounds ones. -/
theorem claim_C2_eval :
    (gameC2.update (1/20)).grid = gameC2.grid ∧
    (gameC2.update (1/20)).players =
      [(0, { x := 1, y := 0, color := Color.RED, dx := 0, dy := 0, trail := [(-1, 0)] })] ∧
    ¬ inb gridC2 (-1) 0 := by
  have hux : (pC2.update (1/20)).x = -(1/2 : ℚ) := by
    rw [Player.update_x]
    simp only [pC2]
    norm_num
  have hnx : ratFloor ((pC2.update (1/20)).x) = -1 := by
    rw [hux]
    exact ratFloor_eq (by norm_num) (by norm_num)
  have huy : (pC2.update (1/20)).y = 0 := by
    rw [Player.update_y]
    simp only [pC2]
    norm_num
  have hny : ratFloor ((pC2.update (1/20)).y) = 0 := by
    rw [huy]
    decide
  have hco : colorAt gridC2 (ratFloor ((pC2.update (1/20)).x))
      (ratFloor ((pC2.update (1/20)).y)) ≠ some pC2.color := by
    rw [hnx, hny]
    decide
  obtain ⟨hgrid, htrail⟩ := stepPlayer_not_own gridC2 pC2 (1/20) hco
  have hgrid' : (stepPlayer gridC2 pC2 (1/20)).1 = gridC2 := by
    rw [hgrid, hnx, hny]
    decide
  have hp' : (stepPlayer gridC2 pC2 (1/20)).2 =
      { x := 1, y := 0, color := Color.RED, dx := 0, dy := 0, trail := [(-1, 0)] } := by
    apply player_ext
    · rw [stepPlayer_x, hnx]
      norm_num [gridC2]
    · rw [stepPlayer_y, hny]
      show (if (0 : Int) < 0 then ((gridC2.height : ℚ) - 1)
        else if (gridC2.height : Int) ≤ 0 then 0 else (pC2.update (1/20)).y) = 0
      rw [if_neg (by decide), if_neg (by decide)]
      exact huy
    · rw [stepPlayer_color]
      rfl
    · rw [stepPlayer_dx]
      rfl
    · rw [stepPlayer_dy]
      rfl
    · rw [htrail, hnx, hny]
      rfl
  refine ⟨?_, ?_, by decide⟩
  · show (Game.update ⟨gridC2, [(0, pC2)], true⟩ (1/20)).grid = gridC2
    rw [update_singleton]
    exact hgrid'
  · show (Game.update ⟨gridC2, [(0, pC2)], true⟩ (1/20)).players = _
    rw [update_singleton, hp']

/-- Claim C3 counterexample: a red player whose trail has length exactly 1
stands on a red cell of the 3×3 red-ring grid; the simulation step does
trigger `fill_enclosed_area` — the blank center cell (1,1) turns red, the
grid changes, and the trail is cleared — refuting the claim that a trail of
length 1 on an own-colored cell cannot trigger a fill. -/
theorem claim_C3_counterexample :
    gridC3.get 1 1 = some Cell.blank ∧
    colorAt gridC3 0 0 = some Color.RED ∧
    pC3.trail.length = 1 ∧
    (gameC3.update 1).grid = gridC3.fill_enclosed_area Color.RED ∧
    ((gameC3.update 1).grid).get 1 1 = some (Cell.colored Color.RED) ∧
    ¬ ((gameC3.update 1).grid = gameC3.grid) ∧
    (gameC3.update 1).players =
      [(0, { x := 0, y := 0, color := Color.RED, dx := 0, dy := 0, trail := [] })] := by
  have hux : (pC3.update 1).x = 0 := by
    rw [Player.update_x]
    simp only [pC3]
    norm_num
  have huy : (pC3.update 1).y = 0 := by
    rw [Player.update_y]
    simp only [pC3]
    norm_num
  have hnx : ratFloor ((pC3.update 1).x) = 0 := by
    rw [hux]
    decide
  have hny : ratFloor ((pC3.update 1).y) = 0 := by
    rw [huy]
    decide
  have hco : colorAt gridC3 (ratFloor ((pC3.update 1).x)) (ratFloor ((pC3.update 1).y)) =
      some pC3.color := by
    rw [hnx, hny]
    decide
  have ht : pC3.trail ≠ [] := by decide
  obtain ⟨hgrid, htrail⟩ := stepPlayer_own_fill gridC3 pC3 1 hco ht
  have hgd : (gameC3.update 1).grid = gridC3.fill_enclosed_area Color.RED := by
    show (Game.update ⟨gridC3, [(0, pC3)], true⟩ 1).grid = _
    rw [update_singleton]
    exact hgrid
  refine ⟨by decide, by decide, by decide, hgd, ?_, ?_, ?_⟩
  · rw [hgd]
    decide
  · rw [hgd]
    show ¬ (gridC3.fill_enclosed_area Color.RED = gridC3)
    decide
  · show (Game.update ⟨gridC3, [(0, pC3)], true⟩ 1).players = _
    have hp' : (stepPlayer gridC3 pC3 1).2 =
        { x := 0, y := 0, color := Color.RED, dx := 0, dy := 0, trail := [] } := by
      apply player_ext
      · rw [stepPlayer_x, hnx]
        show (if (0 : Int) < 0 then ((gridC3.width : ℚ) - 1)
          else if (gridC3.width : Int) ≤ 0 then 0 else (pC3.update 1).x) = 0
        rw [if_neg (by decide), if_neg (by decide)]
        exact hux
      · rw [stepPlayer_y, hny]
        show (if (0 : Int) < 0 then ((gridC3.height : ℚ) - 1)
          else if (gridC3.height : Int) ≤ 0 then 0 else (pC3.update 1).y) = 0
        rw [if_neg (by decide), if_neg (by decide)]
        exact huy
      · rw [stepPlayer_color]
        rfl
      · rw [stepPlayer_dx]
        rfl
      · rw [stepPlayer_dy]
        rfl
      · exact htrail
    rw [update_singleton, hp']

/-- Claim C3 amended: a fill is triggered exactly when the cell at the
(pre-wrap) floored position is the player's own color and the trail is
non-empty; with an empty trail on an own-colored cell the step changes
neither the grid nor the trail, and on a non-own-colored cell the step paints
that cell instead of filling. -/
theorem claim_C3_amended (grid : Grid) (p : Player) (ft : ℚ) :
    (colorAt grid (ratFloor ((p.update ft).x)) (ratFloor ((p.update ft).y)) =
        some p.color →
      (p.trail = [] → (stepPlayer grid p ft).1 = grid ∧
        ((stepPlayer grid p ft).2).trail = p.trail) ∧
      (p.trail ≠ [] → (stepPlayer grid p ft).1 = grid.fill_enclosed_area p.color ∧
        ((stepPlayer grid p ft).2).trail = [])) ∧
    (colorAt grid (ratFloor ((p.update ft).x)) (ratFloor ((p.update ft).y)) ≠
        some p.color →
      (stepPlayer grid p ft).1 =
        grid.set (ratFloor ((p.update ft).x)) (ratFloor ((p.update ft).y))
          (Cell.colored p.color)) := by
  constructor
  · intro hco
    constructor
    · intro ht
      have h := stepPlayer_own_empty grid p ft hco ht
      exact ⟨h.1, by rw [h.2, ht]⟩
    · intro ht
      exact stepPlayer_own_fill grid p ft hco ht
  · intro hco
    exact (stepPlayer_not_own grid p ft hco).1

/-- Claim C3 amended, witness: on the red-ring fixture the fill branch fires
(non-empty trail), and on a repositioned empty-trail player the step is a
no-op on grid and trail. -/
theorem claim_C3_witness :
    ((stepPlayer gridC3 pC3 1).1 = gridC3.fill_enclosed_area pC3.color ∧
      ((stepPlayer gridC3 pC3 1).2).trail = []) ∧
    ((stepPlayer gridC3 { x := 0, y := 0, color := Color.RED } 1).1 = gridC3 ∧
      ((stepPlayer gridC3 { x := 0, y := 0, color := Color.RED } 1).2).trail =
        ({ x := 0, y := 0, color := Color.RED } : Player).trail) := by
  have hco : colorAt gridC3 (ratFloor ((pC3.update 1).x)) (ratFloor ((pC3.update 1).y)) =
      some pC3.color := by
    rw [show ratFloor ((pC3.update 1).x) = 0 from by
        rw [Player.update_x]; simp only [pC3]; norm_num; decide,
      show ratFloor ((pC3.update 1).y) = 0 from by
        rw [Player.update_y]; simp only [pC3]; norm_num; decide]
    decide
  have hco2 : colorAt gridC3
      (ratFloor ((Player.update { x := 0, y := 0, color := Color.RED } 1).x))
      (ratFloor ((Player.update { x := 0, y := 0, color := Color.RED } 1).y)) =
      some ({ x := 0, y := 0, color := Color.RED } : Player).color := by
    rw [show ratFloor ((Player.update { x := 0, y := 0, color := Color.RED } 1).x) = 0 from by
        rw [Player.update_x]; norm_num; decide,
      show ratFloor ((Player.update { x := 0, y := 0, color := Color.RED } 1).y) = 0 from by
        rw [Player.update_y]; norm_num; decide]
    decide
  exact ⟨(claim_C3_amended gridC3 pC3 1).1 hco |>.2 (by decide),
    (claim_C3_amended gridC3 { x := 0, y := 0, color := Color.RED } 1).1 hco2 |>.1 rfl⟩

/-- Claim C4 counterexample: on a 1×1 grid a player moving left appends the
out-of-bounds pre-wrap position `(-4, 0)` to its trail on two consecutive
steps — the trail holds out-of-bounds cells and two equal consecutive
entries, refuting both the in-bounds claim and the skip-if-duplicate claim. -/
theorem claim_C4_counterexample :
    ((gameC4.update 1).update 1).players =
      [(0, { x := 0, y := 0, color := Color.RED, dx := -1, dy := 0,
             trail := [(-4, 0), (-4, 0)] })] ∧
    ¬ inb gridC4 (-4) 0 ∧
    ((gameC4.update 1).update 1).grid = gridC4 := by
  have h1 := step_left_oob pC4 rfl rfl rfl rfl rfl
  have hg1 : gameC4.update 1 =
      ⟨gridC4, [(0, { x := 0, y := 0, color := Color.RED, dx := -1, dy := 0,
                      trail := [(-4, 0)] })], true⟩ := by
    show Game.update ⟨gridC4, [(0, pC4)], true⟩ 1 = _
    rw [update_singleton, h1]
    rfl
  have h2 := step_left_oob
    { x := 0, y := 0, color := Color.RED, dx := -1, dy := 0, trail := [(-4, 0)] }
    rfl rfl rfl rfl rfl
  refine ⟨?_, by decide, ?_⟩
  · rw [hg1, update_singleton, h2]
    rfl
  · rw [hg1, update_singleton, h2]

/-- Claim C4 amended: in each step the trail either is cleared (own-colored
cell, non-empty trail), stays unchanged (own-colored cell, empty trail), or
gets the pre-wrap floored position — possibly out of bounds — appended at the
end unconditionally (no duplicate skip); existing entries are never
reordered. -/
theorem claim_C4_amended (grid : Grid) (p : Player) (ft : ℚ) :
    (colorAt grid (ratFloor ((p.update ft).x)) (ratFloor ((p.update ft).y)) =
        some p.color ∧ p.trail ≠ [] ∧ ((stepPlayer grid p ft).2).trail = []) ∨
    (colorAt grid (ratFloor ((p.update ft).x)) (ratFloor ((p.update ft).y)) =
        some p.color ∧ p.trail = [] ∧ ((stepPlayer grid p ft).2).trail = p.trail) ∨
    (colorAt grid (ratFloor ((p.update ft).x)) (ratFloor ((p.update ft).y)) ≠
        some p.color ∧
      ((stepPlayer grid p ft).2).trail =
        p.trail ++ [(ratFloor ((p.update ft).x), ratFloor ((p.update ft).y))]) := by
  by_cases hco : colorAt grid (ratFloor ((p.update ft).x)) (ratFloor ((p.update ft).y)) =
      some p.color
  · by_cases ht : p.trail = []
    · exact Or.inr (Or.inl ⟨hco, ht,
        by rw [(stepPlayer_own_empty grid p ft hco ht).2, ht]⟩)
    · exact Or.inl ⟨hco, ht, (stepPlayer_own_fill grid p ft hco ht).2⟩
  · exact Or.inr (Or.inr ⟨hco, (stepPlayer_not_own grid p ft hco).2⟩)

end ClaimC2C3C4

end Paperio
